import Mathlib

/-!
Shallow embedding of the gRPC fan-out broadcaster in `src/grpc.rs`.

The embedding mirrors, definition by definition, the Rust source:
the domain event model (`Message` and its four payload variants), the
wire conversion (`impl From<&Message> for UpdateOneof`), the bounded
per-subscriber delivery channel (`tokio::sync::mpsc` with `try_send`),
the coordinator loop body (`GrpcService::send_loop`), and the
subscription endpoint (`GrpcService::subscribe`).

External collaborator types (Solana SDK payloads, the compiled filter)
are out of scope per the design document and are carried opaquely; a
compiled filter is an opaque evaluation capability.  A panic inside
filter evaluation is modelled by the evaluator returning `none`: the
surrounding loop then aborts exactly as a Rust panic unwinds the
spawned coordinator task.
-/

set_option maxHeartbeats 1000000

namespace Redstone

/-- External Solana account address (`solana_sdk::pubkey::Pubkey`), carried
opaquely as its byte representation, matching what `as_ref` exposes. -/
structure Pubkey where
  bytes : List Nat
deriving DecidableEq

/-- External transaction signature, carried opaquely as bytes. -/
structure Signature where
  bytes : List Nat
deriving DecidableEq

/-- External sanitized-transaction payload; opaque to this unit, cloned and
carried verbatim into the wire message. -/
structure SanitizedTransaction where
  payload : Nat
deriving DecidableEq

/-- External transaction status metadata; opaque, carried verbatim. -/
structure TransactionStatusMeta where
  payload : Nat
deriving DecidableEq

/-- External block reward entry; opaque, carried verbatim. -/
structure Reward where
  payload : Nat
deriving DecidableEq

/-- Mirrors `MessageAccountInfo` (src/grpc.rs lines 38-48). -/
structure MessageAccountInfo where
  pubkey : Pubkey
  lamports : Nat
  owner : Pubkey
  executable : Bool
  rent_epoch : Nat
  data : List Nat
  write_version : Nat
deriving DecidableEq

/-- Mirrors `MessageAccount` (src/grpc.rs lines 50-55). -/
structure MessageAccount where
  account : MessageAccountInfo
  slot : Nat
  is_startup : Bool
deriving DecidableEq

/-- Mirrors the generated `SubscribeUpdateSlotStatus` proto enum used by
`MessageSlot` (Processed, Confirmed, Rooted). -/
inductive SubscribeUpdateSlotStatus where
  | Processed
  | Confirmed
  | Rooted
deriving DecidableEq

/-- Mirrors `MessageSlot` (src/grpc.rs lines 78-83). -/
structure MessageSlot where
  slot : Nat
  parent : Option Nat
  status : SubscribeUpdateSlotStatus
deriving DecidableEq

/-- Mirrors `MessageTransactionInfo` (src/grpc.rs lines 99-106). -/
structure MessageTransactionInfo where
  signature : Signature
  is_vote : Bool
  transaction : SanitizedTransaction
  meta : TransactionStatusMeta
deriving DecidableEq

/-- Mirrors `MessageTransaction` (src/grpc.rs lines 108-112). -/
structure MessageTransaction where
  transaction : MessageTransactionInfo
  slot : Nat
deriving DecidableEq

/-- Mirrors `MessageBlock` (src/grpc.rs lines 131-138). -/
structure MessageBlock where
  slot : Nat
  blockhash : String
  rewards : List Reward
  block_time : Option Int
  block_height : Option Nat
deriving DecidableEq

/-- Mirrors the `Message` enum (src/grpc.rs lines 154-160): the domain event
ingested by the coordinator. -/
inductive Message where
  | Slot (m : MessageSlot)
  | Account (m : MessageAccount)
  | Transaction (m : MessageTransaction)
  | Block (m : MessageBlock)
deriving DecidableEq

/-- Wire shape `SubscribeUpdateSlot`.  The `as i32` enum cast performed by the
generated proto code is injective and elided: the status is carried as the
enum itself. -/
structure SubscribeUpdateSlot where
  slot : Nat
  parent : Option Nat
  status : SubscribeUpdateSlotStatus
deriving DecidableEq

/-- Wire shape `SubscribeUpdateAccountInfo`. -/
structure SubscribeUpdateAccountInfo where
  pubkey : List Nat
  lamports : Nat
  owner : List Nat
  executable : Bool
  rent_epoch : Nat
  data : List Nat
  write_version : Nat
deriving DecidableEq

/-- Wire shape `SubscribeUpdateAccount`. -/
structure SubscribeUpdateAccount where
  account : Option SubscribeUpdateAccountInfo
  slot : Nat
  is_startup : Bool
deriving DecidableEq

/-- Wire shape `SubscribeUpdateTransactionInfo`; the external proto
conversions of the transaction payload and status meta are identity-like
carriers here. -/
structure SubscribeUpdateTransactionInfo where
  signature : List Nat
  is_vote : Bool
  transaction : Option SanitizedTransaction
  meta : Option TransactionStatusMeta
deriving DecidableEq

/-- Wire shape `SubscribeUpdateTransaction`. -/
structure SubscribeUpdateTransaction where
  transaction : Option SubscribeUpdateTransactionInfo
  slot : Nat
deriving DecidableEq

/-- Wire shape `SubscribeUpdateBlock`. -/
structure SubscribeUpdateBlock where
  slot : Nat
  blockhash : String
  rewards : Option (List Reward)
  block_time : Option Int
  block_height : Option Nat
deriving DecidableEq

/-- Wire oneof `UpdateOneof` over the four converted payloads. -/
inductive UpdateOneof where
  | Slot (u : SubscribeUpdateSlot)
  | Account (u : SubscribeUpdateAccount)
  | Transaction (u : SubscribeUpdateTransaction)
  | Block (u : SubscribeUpdateBlock)
deriving DecidableEq

/-- Mirrors `impl From<&Message> for UpdateOneof` (src/grpc.rs lines 162-202):
pure, total conversion of a domain event into its wire representation. -/
def toUpdateOneof : Message → UpdateOneof
  | .Slot m => .Slot { slot := m.slot, parent := m.parent, status := m.status }
  | .Account m => .Account
      { account := some
          { pubkey := m.account.pubkey.bytes
            lamports := m.account.lamports
            owner := m.account.owner.bytes
            executable := m.account.executable
            rent_epoch := m.account.rent_epoch
            data := m.account.data
            write_version := m.account.write_version }
        slot := m.slot
        is_startup := m.is_startup }
  | .Transaction m => .Transaction
      { transaction := some
          { signature := m.transaction.signature.bytes
            is_vote := m.transaction.is_vote
            transaction := some m.transaction.transaction
            meta := some m.transaction.meta }
        slot := m.slot }
  | .Block m => .Block
      { slot := m.slot
        blockhash := m.blockhash
        rewards := some m.rewards
        block_time := m.block_time
        block_height := m.block_height }

/-- The tonic `Status` values this unit constructs. -/
inductive Status where
  | invalid_argument (msg : String)
  | internal (msg : String)
deriving DecidableEq

/-- Wire message `SubscribeUpdate`: matched filter names plus the converted
event payload. -/
structure SubscribeUpdate where
  filters : List String
  update_oneof : Option UpdateOneof
deriving DecidableEq

/-- One item travelling on a subscriber's delivery channel: `Ok` data message
or a terminal `Err` status, as in `mpsc::Sender<TonicResult<SubscribeUpdate>>`. -/
abbrev StreamItem := Except Status SubscribeUpdate

instance : DecidableEq StreamItem := fun a b =>
  match a, b with
  | .ok x, .ok y => if h : x = y then .isTrue (by rw [h]) else .isFalse (by simp [h])
  | .ok _, .error _ => .isFalse (by simp)
  | .error _, .ok _ => .isFalse (by simp)
  | .error x, .error y => if h : x = y then .isTrue (by rw [h]) else .isFalse (by simp [h])

/-- The bounded per-subscriber delivery channel (`tokio::sync::mpsc::channel`):
a FIFO queue of in-flight items, its configured capacity, and whether the
receiving half has been dropped. -/
structure Channel where
  capacity : Nat
  queue : List StreamItem
  closed : Bool
deriving DecidableEq

/-- The two failure cases of `mpsc::Sender::try_send`. -/
inductive TrySendError where
  | Full
  | Closed
deriving DecidableEq

/-- Mirrors `mpsc::Sender::try_send`: fails with `Closed` when the receiver is
gone, with `Full` when the queue is at capacity, otherwise enqueues.  On
failure the message is handed back to the caller and discarded there. -/
def Channel.trySend (ch : Channel) (m : StreamItem) : Except TrySendError Channel :=
  if ch.closed then .error .Closed
  else if ch.queue.length < ch.capacity then .ok { ch with queue := ch.queue ++ [m] }
  else .error .Full

/-- Mirrors the blocking `mpsc::Sender::send(..).await` used only on the
spawned teardown task: it waits for room and enqueues, or is dropped
best-effort when the receiver is gone (`let _ = ...`). -/
def Channel.sendBlocking (ch : Channel) (m : StreamItem) : Channel :=
  if ch.closed then ch else { ch with queue := ch.queue ++ [m] }

/-- The terminal lagged-stream error pushed to an evicted slow subscriber
(`Status::internal("lagged")`). -/
def laggedError : StreamItem := .error (Status.internal ("lagged"))

/-- The compiled filter (`crate::filters::Filter`), an external collaborator
kept opaque: an evaluation capability from events to matched filter names.
Returning `none` models a panic inside the evaluation, which in the source
unwinds the coordinator task. -/
structure Filter where
  get_filters : Message → Option (List String)

/-- Mirrors `ClientConnection` (src/grpc.rs lines 204-209): one registered
subscriber, owning the sending half of its delivery channel. -/
structure ClientConnection where
  id : Nat
  filter : Filter
  channel : Channel

/-- A spawned teardown task for a lagged subscriber (src/grpc.rs lines
288-293): it owns the removed client's id and channel and, when the runtime
schedules it, decrements the connection gauge and pushes the lagged error. -/
structure SpawnedEviction where
  id : Nat
  channel : Channel

/-- The coordinator's state: the registry of live subscribers (`clients`, a
`HashMap` rendered as an id-unique association list whose order stands for the
map's own iteration order), the `CONNECTIONS_TOTAL` gauge, and teardown tasks
that have been spawned but not yet executed by the runtime. -/
structure LoopState where
  clients : List ClientConnection
  connections_total : Int
  spawned : List SpawnedEviction

/-- Per-subscriber outcome of one dispatch iteration of the scan loop. -/
inductive ClientOutcome where
  | skipped
  | sent
  | full
  | closed
deriving DecidableEq

/-- One iteration of the scan `for client in clients.values()` (src/grpc.rs
lines 272-284) for a single subscriber: evaluate the filter, skip on an empty
name set, otherwise attempt the non-blocking send.  `none` models a panic
inside `get_filters`. -/
def clientStep (m : Message) (c : ClientConnection) :
    Option (ClientConnection × ClientOutcome) :=
  match c.filter.get_filters m with
  | none => none
  | some fs =>
    if fs.isEmpty then some (c, .skipped)
    else
      match c.channel.trySend (.ok { filters := fs, update_oneof := some (toUpdateOneof m) }) with
      | .ok ch => some ({ c with channel := ch }, .sent)
      | .error .Full => some (c, .full)
      | .error .Closed => some (c, .closed)

/-- The subscriber as it stands after the scan touched it (identity when the
filter evaluation faults; the fault case never survives to a completed scan). -/
def stepClient (m : Message) (c : ClientConnection) : ClientConnection :=
  match clientStep m c with
  | some p => p.1
  | none => c

/-- Selector: the id pushed onto `ids_full` by this subscriber, if any. -/
def fullSel (m : Message) (c : ClientConnection) : Option Nat :=
  match clientStep m c with
  | some (_, .full) => some c.id
  | _ => none

/-- Selector: the id pushed onto `ids_closed` by this subscriber, if any. -/
def closedSel (m : Message) (c : ClientConnection) : Option Nat :=
  match clientStep m c with
  | some (_, .closed) => some c.id
  | _ => none

/-- Selector (ghost instrumentation): the id of this subscriber when the scan
calls `try_send` for it at all, i.e. when its filter-name set is non-empty. -/
def attemptSel (m : Message) (c : ClientConnection) : Option Nat :=
  match clientStep m c with
  | some (_, .skipped) => none
  | some _ => some c.id
  | none => none

/-- Result of a completed scan over the registry for one event: the updated
subscribers in iteration order, the two eviction lists in the order they were
pushed, and (ghost) the ids for which a `try_send` was attempted. -/
structure ScanResult where
  clients : List ClientConnection
  ids_full : List Nat
  ids_closed : List Nat
  attempts : List Nat

/-- A scan either completes or panics partway; on a panic the already-scanned
prefix keeps its updated channels (those sends happened before the unwind) and
the rest of the registry is untouched. -/
inductive ScanOutcome where
  | ok (r : ScanResult)
  | panicked (clients : List ClientConnection)

/-- The scan half of one `update_channel_rx` arm (src/grpc.rs lines 269-284):
iterate the registry once, collecting `ids_full` and `ids_closed`. -/
def scanClients (m : Message) : List ClientConnection → ScanOutcome
  | [] => .ok { clients := [], ids_full := [], ids_closed := [], attempts := [] }
  | c :: rest =>
    match clientStep m c with
    | none => .panicked (c :: rest)
    | some (c', out) =>
      match scanClients m rest with
      | .panicked cs => .panicked (c' :: cs)
      | .ok r =>
        .ok { clients := c' :: r.clients
              ids_full := (match out with | .full => c.id :: r.ids_full | _ => r.ids_full)
              ids_closed := (match out with | .closed => c.id :: r.ids_closed | _ => r.ids_closed)
              attempts := (match out with | .skipped => r.attempts | _ => c.id :: r.attempts) }

/-- Mirrors `HashMap::remove(&id)`: detaches the entry with the given id, if
present, returning it together with the remaining registry. -/
def removeClient (id : Nat) : List ClientConnection →
    Option ClientConnection × List ClientConnection
  | [] => (none, [])
  | c :: rest =>
    if c.id = id then (some c, rest)
    else
      let p := removeClient id rest
      (p.1, c :: p.2)

/-- Mirrors `for id in ids_full { if let Some(client) = clients.remove(&id) {
tokio::spawn(...) } }` (src/grpc.rs lines 286-294): each lagged subscriber is
removed from the registry now, and its gauge decrement plus lagged-error push
are deferred to a freshly spawned task. -/
def processFullIds : List Nat → List ClientConnection → List SpawnedEviction →
    List ClientConnection × List SpawnedEviction
  | [], cs, sp => (cs, sp)
  | id :: ids, cs, sp =>
    match removeClient id cs with
    | (some c, cs') => processFullIds ids cs' (sp ++ [{ id := c.id, channel := c.channel }])
    | (none, cs') => processFullIds ids cs' sp

/-- Mirrors `for id in ids_closed { if let Some(client) = clients.remove(&id)
{ CONNECTIONS_TOTAL.dec(); } }` (src/grpc.rs lines 295-300): silent eviction
with a synchronous gauge decrement. -/
def processClosedIds : List Nat → List ClientConnection → Int →
    List ClientConnection × Int
  | [], cs, g => (cs, g)
  | id :: ids, cs, g =>
    match removeClient id cs with
    | (some _, cs') => processClosedIds ids cs' (g - 1)
    | (none, cs') => processClosedIds ids cs' g

/-- Outcome of one full dispatch pass: the coordinator either reaches the next
`select!` wait, or its task has panicked (carrying the state at unwind time,
after which the loop body never runs again). -/
inductive DispatchOutcome where
  | ok (st : LoopState)
  | panicked (st : LoopState)

/-- Whether the pass ended in a panic of the coordinator task. -/
def DispatchOutcome.isPanicked : DispatchOutcome → Bool
  | .ok _ => false
  | .panicked _ => true

/-- The state carried by either outcome. -/
def DispatchOutcome.state : DispatchOutcome → LoopState
  | .ok st => st
  | .panicked st => st

/-- One `Some(message) = update_channel_rx.recv()` arm of the coordinator loop
(src/grpc.rs lines 268-301): scan every registered subscriber, then apply the
two eviction lists collected during the scan. -/
def dispatchEvent (m : Message) (st : LoopState) : DispatchOutcome :=
  match scanClients m st.clients with
  | .panicked cs => .panicked { st with clients := cs }
  | .ok r =>
    let pf := processFullIds r.ids_full r.clients st.spawned
    let pc := processClosedIds r.ids_closed pf.1 st.connections_total
    .ok { clients := pc.1, connections_total := pc.2, spawned := pf.2 }

/-- The coordinator processing a sequence of ingested events in FIFO order; a
panic terminates the loop, so later events are never dispatched. -/
def processEvents : List Message → LoopState → DispatchOutcome
  | [], st => .ok st
  | m :: rest, st =>
    match dispatchEvent m st with
    | .ok st' => processEvents rest st'
    | .panicked st' => .panicked st'

/-- Executing one spawned teardown task (src/grpc.rs lines 288-293): decrement
`CONNECTIONS_TOTAL`, then push the terminal lagged error (blocking,
best-effort). -/
def runSpawnedTask (g : Int) (t : SpawnedEviction) : Int × SpawnedEviction :=
  (g - 1, { id := t.id, channel := t.channel.sendBlocking laggedError })

/-- One `Some(client) = new_clients_rx.recv()` arm (src/grpc.rs lines
302-306): insert the new subscriber keyed by its id and increment the gauge. -/
def insertClient (c : ClientConnection) : List ClientConnection → List ClientConnection
  | [] => [c]
  | d :: rest => if d.id = c.id then c :: rest else d :: insertClient c rest

/-- Registration processing by the coordinator: registry insert plus
`CONNECTIONS_TOTAL.inc()`. -/
def processRegistration (st : LoopState) (c : ClientConnection) : LoopState :=
  { st with clients := insertClient c st.clients
            connections_total := st.connections_total + 1 }

/-- What the coordinator does with the (optional) registration message an
endpoint call produced: nothing at all when none was sent. -/
def applyRegistration (st : LoopState) : Option ClientConnection → LoopState
  | none => st
  | some c => processRegistration st c

/-- The ids currently present in a registry fragment. -/
def idsOf (cs : List ClientConnection) : List Nat := cs.map (fun c => c.id)

/-- The ids owned by pending teardown tasks. -/
def taskIds (ts : List SpawnedEviction) : List Nat := ts.map (fun t => t.id)

/-- Every subscriber id alive anywhere in the coordinator: registered, or
moved into a pending teardown task.  Identities are never reused, so these
are pairwise distinct in every reachable state. -/
def allIds (st : LoopState) : List Nat := idsOf st.clients ++ taskIds st.spawned

/-- The delivery channel currently backing subscriber `i`'s stream: in the
registry while live, in its teardown task after a lagged eviction, gone after
a silent (closed) eviction. -/
def channelOf (st : LoopState) (i : Nat) : Option Channel :=
  match st.clients.find? (fun c => c.id == i) with
  | some c => some c.channel
  | none => (st.spawned.find? (fun t => t.id == i)).map (fun t => t.channel)

/-- The data payloads among a channel queue's items, in order: the wire events
this subscriber's stream delivers (terminal errors carry no payload). -/
def okPayloads (q : List StreamItem) : List UpdateOneof :=
  q.filterMap (fun e => match e with
    | .ok u => u.update_oneof
    | .error _ => none)

/-- The usize modulus: subscriber ids live in a 64-bit `AtomicUsize`. -/
def USIZE : Nat := 2 ^ 64

/-- An inbound subscription request; its contents only matter to the external
filter compiler, so it is carried opaquely. -/
structure SubscribeRequest where
  payload : Nat
deriving DecidableEq

/-- The synchronous result `GrpcService::subscribe` hands back to tonic. -/
inductive SubscribeResult where
  | accepted
  | invalidArgument (msg : String)
  | internalErr
deriving DecidableEq

/-- Everything one `subscribe` call does (src/grpc.rs lines 317-343):
its return value, the counter after the `fetch_add`, the id the `fetch_add`
consumed, the registration message sent on `new_clients_tx` (if any), and
whether an `mpsc::channel` pair was created. -/
structure SubscribeEffects where
  result : SubscribeResult
  newCounter : Nat
  allocatedId : Nat
  registration : Option ClientConnection
  channelCreated : Bool

/-- Mirrors `GrpcService::subscribe` (src/grpc.rs lines 317-343).  The
external filter compiler `Filter::new` (with the server's configured limits
already partially applied) is a parameter; `alive` states whether the
coordinator still holds its `new_clients_rx` end. -/
def subscribe (compile : SubscribeRequest → Except String Filter) (alive : Bool)
    (capacity : Nat) (counter : Nat) (req : SubscribeRequest) : SubscribeEffects :=
  let id := counter
  let counter' := (counter + 1) % USIZE
  match compile req with
  | .error e =>
    { result := .invalidArgument (("failed to create filter: ") ++ e)
      newCounter := counter'
      allocatedId := id
      registration := none
      channelCreated := false }
  | .ok f =>
    if alive then
      { result := .accepted
        newCounter := counter'
        allocatedId := id
        registration := some { id := id, filter := f
                               channel := { capacity := capacity, queue := [], closed := false } }
        channelCreated := true }
    else
      { result := .internalErr
        newCounter := counter'
        allocatedId := id
        registration := none
        channelCreated := true }

/-- A sequence of `subscribe` calls against the shared atomic counter, in
acceptance order. -/
def runSubscribes (compile : SubscribeRequest → Except String Filter) (alive : Bool)
    (capacity : Nat) : Nat → List SubscribeRequest → List SubscribeEffects
  | _, [] => []
  | counter, r :: rest =>
    let e := subscribe compile alive capacity counter r
    e :: runSubscribes compile alive capacity e.newCounter rest

/-- The ids consumed by `fetch_add`, one per request (also for rejected ones:
the source increments before compiling the filter). -/
def allocatedIds (es : List SubscribeEffects) : List Nat :=
  es.map (fun e => e.allocatedId)

/-- The identities of the accepted subscriptions: those whose registration
message was actually sent to the coordinator. -/
def acceptedIds (es : List SubscribeEffects) : List Nat :=
  es.filterMap (fun e => e.registration.map (fun c => c.id))

/-! Helper lemmas about the per-client scan step. -/

theorem clientStep_isSome {m : Message} {c : ClientConnection}
    (h : (c.filter.get_filters m).isSome) : (clientStep m c).isSome := by
  obtain ⟨fs, hfs⟩ := Option.isSome_iff_exists.mp h
  unfold clientStep
  rw [hfs]
  by_cases he : fs.isEmpty
  · simp [he]
  · simp only [he, if_false]
    cases c.channel.trySend (.ok { filters := fs, update_oneof := some (toUpdateOneof m) }) with
    | ok ch => rfl
    | error e => cases e <;> rfl

theorem clientStep_fst_id {m : Message} {c c' : ClientConnection} {out : ClientOutcome}
    (h : clientStep m c = some (c', out)) : c'.id = c.id := by
  cases hg : c.filter.get_filters m with
  | none =>
    simp only [clientStep, hg] at h
    exact Option.noConfusion h
  | some fs =>
    simp only [clientStep, hg] at h
    by_cases he : fs.isEmpty
    · rw [if_pos he] at h
      injection h with h2
      exact (congrArg (fun p => Prod.fst p |>.id) h2).symm
    · rw [if_neg he] at h
      cases ht : c.channel.trySend (.ok { filters := fs, update_oneof := some (toUpdateOneof m) }) with
      | ok ch =>
        rw [ht] at h
        injection h with h2
        exact (congrArg (fun p => Prod.fst p |>.id) h2).symm
      | error e =>
        rw [ht] at h
        cases e <;>
          { injection h with h2
            exact (congrArg (fun p => Prod.fst p |>.id) h2).symm }

theorem stepClient_id (m : Message) (c : ClientConnection) : (stepClient m c).id = c.id := by
  unfold stepClient
  cases hs : clientStep m c with
  | none => rfl
  | some p =>
    obtain ⟨c', out⟩ := p
    exact clientStep_fst_id hs

theorem clientStep_skipped {m : Message} {c c' : ClientConnection}
    (h : clientStep m c = some (c', .skipped)) : c' = c := by
  cases hg : c.filter.get_filters m with
  | none =>
    simp only [clientStep, hg] at h
    exact Option.noConfusion h
  | some fs =>
    simp only [clientStep, hg] at h
    by_cases he : fs.isEmpty
    · rw [if_pos he] at h
      injection h with h2
      exact (congrArg Prod.fst h2).symm
    · rw [if_neg he] at h
      cases ht : c.channel.trySend (.ok { filters := fs, update_oneof := some (toUpdateOneof m) }) with
      | ok ch => rw [ht] at h; exact absurd h (by simp)
      | error e => rw [ht] at h; cases e <;> exact absurd h (by simp)

theorem clientStep_full {m : Message} {c c' : ClientConnection}
    (h : clientStep m c = some (c', .full)) : c' = c := by
  cases hg : c.filter.get_filters m with
  | none =>
    simp only [clientStep, hg] at h
    exact Option.noConfusion h
  | some fs =>
    simp only [clientStep, hg] at h
    by_cases he : fs.isEmpty
    · rw [if_pos he] at h
      exact absurd h (by simp)
    · rw [if_neg he] at h
      cases ht : c.channel.trySend (.ok { filters := fs, update_oneof := some (toUpdateOneof m) }) with
      | ok ch => rw [ht] at h; exact absurd h (by simp)
      | error e =>
        rw [ht] at h
        cases e
        · injection h with h2
          exact (congrArg Prod.fst h2).symm
        · exact absurd h (by simp)

theorem clientStep_closed {m : Message} {c c' : ClientConnection}
    (h : clientStep m c = some (c', .closed)) : c' = c := by
  cases hg : c.filter.get_filters m with
  | none =>
    simp only [clientStep, hg] at h
    exact Option.noConfusion h
  | some fs =>
    simp only [clientStep, hg] at h
    by_cases he : fs.isEmpty
    · rw [if_pos he] at h
      exact absurd h (by simp)
    · rw [if_neg he] at h
      cases ht : c.channel.trySend (.ok { filters := fs, update_oneof := some (toUpdateOneof m) }) with
      | ok ch => rw [ht] at h; exact absurd h (by simp)
      | error e =>
        rw [ht] at h
        cases e
        · exact absurd h (by simp)
        · injection h with h2
          exact (congrArg Prod.fst h2).symm

theorem clientStep_sent {m : Message} {c c' : ClientConnection}
    (h : clientStep m c = some (c', .sent)) :
    ∃ fs, c.filter.get_filters m = some fs ∧ fs.isEmpty = false ∧ c'.id = c.id ∧
      c'.channel.queue = c.channel.queue ++
        [.ok { filters := fs, update_oneof := some (toUpdateOneof m) }] ∧
      c.channel.queue.length < c.channel.capacity := by
  cases hg : c.filter.get_filters m with
  | none =>
    simp only [clientStep, hg] at h
    exact Option.noConfusion h
  | some fs =>
    simp only [clientStep, hg] at h
    by_cases he : fs.isEmpty
    · rw [if_pos he] at h
      exact absurd h (by simp)
    · rw [if_neg he] at h
      cases ht : c.channel.trySend (.ok { filters := fs, update_oneof := some (toUpdateOneof m) }) with
      | ok ch =>
        rw [ht] at h
        injection h with h2
        have hc' : ({ c with channel := ch } : ClientConnection) = c' := congrArg Prod.fst h2
        unfold Channel.trySend at ht
        by_cases hcl : c.channel.closed
        · rw [if_pos hcl] at ht; exact absurd ht (by simp)
        · rw [if_neg hcl] at ht
          by_cases hlen : c.channel.queue.length < c.channel.capacity
          · rw [if_pos hlen] at ht
            injection ht with ht2
            refine ⟨fs, rfl, Bool.eq_false_iff.mpr he, ?_, ?_, hlen⟩
            · rw [← hc']
            · rw [← hc']
              show ch.queue = _
              rw [← ht2]
          · rw [if_neg hlen] at ht; exact absurd ht (by simp)
      | error e => rw [ht] at h; cases e <;> exact absurd h (by simp)

theorem clientStep_of_full {m : Message} {c : ClientConnection} {fs : List String}
    (hg : c.filter.get_filters m = some fs) (hne : fs.isEmpty = false)
    (hcl : c.channel.closed = false) (hcap : c.channel.capacity ≤ c.channel.queue.length) :
    clientStep m c = some (c, .full) := by
  unfold clientStep
  rw [hg]
  simp only [hne, Bool.false_eq_true, if_false]
  have ht : c.channel.trySend (.ok { filters := fs, update_oneof := some (toUpdateOneof m) }) =
      .error .Full := by
    unfold Channel.trySend
    rw [hcl]
    simp [Nat.not_lt.mpr hcap]
  rw [ht]

theorem clientStep_of_empty {m : Message} {c : ClientConnection}
    (hg : c.filter.get_filters m = some []) : clientStep m c = some (c, .skipped) := by
  unfold clientStep
  rw [hg]
  rfl

theorem fullSel_shape (m : Message) (c : ClientConnection) :
    fullSel m c = none ∨ fullSel m c = some c.id := by
  unfold fullSel
  cases clientStep m c with
  | none => exact Or.inl rfl
  | some p =>
    obtain ⟨c', out⟩ := p
    cases out <;> simp

theorem closedSel_shape (m : Message) (c : ClientConnection) :
    closedSel m c = none ∨ closedSel m c = some c.id := by
  unfold closedSel
  cases clientStep m c with
  | none => exact Or.inl rfl
  | some p =>
    obtain ⟨c', out⟩ := p
    cases out <;> simp

theorem attemptSel_shape (m : Message) (c : ClientConnection) :
    attemptSel m c = none ∨ attemptSel m c = some c.id := by
  unfold attemptSel
  cases clientStep m c with
  | none => exact Or.inl rfl
  | some p =>
    obtain ⟨c', out⟩ := p
    cases out <;> simp

/-- A `filterMap` whose function yields, when anything, the image under `g`,
produces an order-preserving selection of the `g`-image. -/
theorem filterMap_sublist_map {α β : Type} (f : α → Option β) (g : α → β)
    (hf : ∀ a, f a = none ∨ f a = some (g a)) :
    ∀ l : List α, List.Sublist (l.filterMap f) (l.map g)
  | [] => List.Sublist.refl _
  | a :: l => by
    rcases hf a with h | h
    · rw [List.filterMap_cons_none h, List.map_cons]
      exact (filterMap_sublist_map f g hf l).cons (g a)
    · rw [List.filterMap_cons_some h, List.map_cons]
      exact (filterMap_sublist_map f g hf l).cons₂ (g a)

/-- A completed scan is exactly the per-client step applied pointwise, with
the three id lists collected by their selectors. -/
theorem scan_total (m : Message) :
    ∀ L : List ClientConnection, (∀ c ∈ L, (c.filter.get_filters m).isSome) →
      scanClients m L = .ok { clients := L.map (stepClient m),
                              ids_full := L.filterMap (fullSel m),
                              ids_closed := L.filterMap (closedSel m),
                              attempts := L.filterMap (attemptSel m) }
  | [], _ => rfl
  | c :: rest, h => by
    have hc := clientStep_isSome (h c (List.mem_cons_self c rest))
    obtain ⟨p, hp⟩ := Option.isSome_iff_exists.mp hc
    obtain ⟨c', out⟩ := p
    have ih := scan_total m rest (fun d hd => h d (List.mem_cons_of_mem c hd))
    cases out <;>
      simp only [scanClients, hp, ih, List.map_cons, List.filterMap_cons,
        stepClient, fullSel, closedSel, attemptSel]

/-- Inversion: whenever the scan completes, every client step was defined and
the result is the pointwise formula of `scan_total`. -/
theorem scan_ok_inv (m : Message) :
    ∀ (L : List ClientConnection) (r : ScanResult), scanClients m L = .ok r →
      (∀ c ∈ L, (clientStep m c).isSome) ∧
      r = { clients := L.map (stepClient m),
            ids_full := L.filterMap (fullSel m),
            ids_closed := L.filterMap (closedSel m),
            attempts := L.filterMap (attemptSel m) }
  | [], r, h => by
    refine ⟨by simp, ?_⟩
    injection h with h2
    rw [← h2]
    rfl
  | c :: rest, r, h => by
    cases hp : clientStep m c with
    | none =>
      simp only [scanClients, hp] at h
      exact ScanOutcome.noConfusion h
    | some p =>
      obtain ⟨c', out⟩ := p
      simp only [scanClients, hp] at h
      cases hrest : scanClients m rest with
      | panicked cs =>
        rw [hrest] at h
        exact ScanOutcome.noConfusion h
      | ok r' =>
        rw [hrest] at h
        obtain ⟨htot, hr'⟩ := scan_ok_inv m rest r' hrest
        refine ⟨?_, ?_⟩
        · intro d hd
          rcases List.mem_cons.mp hd with rfl | hd'
          · rw [hp]; rfl
          · exact htot d hd'
        · injection h with h2
          rw [← h2, hr']
          cases out <;>
            simp only [List.map_cons, List.filterMap_cons,
              stepClient, fullSel, closedSel, attemptSel, hp]

/-- A fault inside filter evaluation for one subscriber aborts the scan right
there: the already-scanned prefix keeps its new channels, everything at and
after the faulting subscriber is untouched, and no eviction list is built. -/
theorem scan_panicked_of (m : Message) (c : ClientConnection)
    (hc : c.filter.get_filters m = none) :
    ∀ (pre post : List ClientConnection), (∀ d ∈ pre, (d.filter.get_filters m).isSome) →
      scanClients m (pre ++ c :: post) = .panicked (pre.map (stepClient m) ++ c :: post)
  | [], post, _ => by
    have hp : clientStep m c = none := by
      unfold clientStep
      rw [hc]
    simp only [List.nil_append, scanClients, hp, List.map_nil]
  | d :: pre, post, h => by
    have hd := clientStep_isSome (h d (List.mem_cons_self d pre))
    obtain ⟨p, hp⟩ := Option.isSome_iff_exists.mp hd
    obtain ⟨d', out⟩ := p
    have ih := scan_panicked_of m c hc pre post (fun e he => h e (List.mem_cons_of_mem d he))
    have hstep : stepClient m d = d' := by
      unfold stepClient
      rw [hp]
    rw [List.cons_append]
    simp only [scanClients, hp, List.append_eq, ih, List.map_cons, hstep, List.cons_append]

/-! Helper lemmas about registry removal. -/

theorem removeClient_fst (id : Nat) :
    ∀ cs : List ClientConnection, (removeClient id cs).1 = cs.find? (fun c => c.id == id)
  | [] => rfl
  | c :: rest => by
    by_cases h : c.id = id
    · rw [List.find?_cons_of_pos _ (by simp [h])]
      simp [removeClient, if_pos h]
    · rw [List.find?_cons_of_neg _ (by simp [h])]
      simp only [removeClient, if_neg h]
      exact removeClient_fst id rest

theorem removeClient_none (id : Nat) :
    ∀ cs : List ClientConnection, cs.find? (fun c => c.id == id) = none →
      (removeClient id cs).2 = cs
  | [], _ => rfl
  | c :: rest, h => by
    have hne : ¬ c.id = id := by
      intro he
      rw [List.find?_cons_of_pos _ (by simp [he])] at h
      exact Option.noConfusion h
    rw [List.find?_cons_of_neg _ (by simp [hne])] at h
    simp only [removeClient, if_neg hne]
    rw [removeClient_none id rest h]

theorem removeClient_snd_sublist (id : Nat) :
    ∀ cs : List ClientConnection, List.Sublist (removeClient id cs).2 cs
  | [] => List.Sublist.refl _
  | c :: rest => by
    by_cases h : c.id = id
    · simp only [removeClient, if_pos h]
      exact List.sublist_cons_self c rest
    · simp only [removeClient, if_neg h]
      exact (removeClient_snd_sublist id rest).cons₂ c

theorem removeClient_find?_ne {j id : Nat} (hne : j ≠ id) :
    ∀ cs : List ClientConnection,
      (removeClient id cs).2.find? (fun c => c.id == j) = cs.find? (fun c => c.id == j)
  | [] => rfl
  | c :: rest => by
    by_cases h : c.id = id
    · simp only [removeClient, if_pos h]
      rw [List.find?_cons_of_neg _ (by simp [h, Ne.symm hne])]
    · simp only [removeClient, if_neg h]
      by_cases hj : c.id = j
      · rw [List.find?_cons_of_pos _ (by simp [hj]), List.find?_cons_of_pos _ (by simp [hj])]
      · rw [List.find?_cons_of_neg _ (by simp [hj]), List.find?_cons_of_neg _ (by simp [hj])]
        exact removeClient_find?_ne hne rest

theorem removeClient_find?_self (id : Nat) :
    ∀ cs : List ClientConnection, (idsOf cs).Nodup →
      (removeClient id cs).2.find? (fun c => c.id == id) = none
  | [], _ => rfl
  | c :: rest, hnd => by
    have hnd' : (idsOf rest).Nodup := (List.nodup_cons.mp hnd).2
    by_cases h : c.id = id
    · simp only [removeClient, if_pos h]
      rw [List.find?_eq_none]
      intro d hd
      have : d.id ∈ idsOf rest := List.mem_map.mpr ⟨d, hd, rfl⟩
      intro hbeq
      have hdid : d.id = id := by simpa using hbeq
      refine (List.nodup_cons.mp hnd).1 ?_
      show c.id ∈ idsOf rest
      rw [h, ← hdid]
      exact this
    · simp only [removeClient, if_neg h]
      rw [List.find?_cons_of_neg _ (by simp [h])]
      exact removeClient_find?_self id rest hnd'

theorem removeClient_perm (id : Nat) :
    ∀ cs : List ClientConnection,
      List.Perm ((removeClient id cs).2 ++ ((removeClient id cs).1).toList) cs
  | [] => List.Perm.refl _
  | c :: rest => by
    by_cases h : c.id = id
    · simp only [removeClient, if_pos h, Option.toList_some]
      exact List.perm_append_singleton c rest
    · simp only [removeClient, if_neg h, List.cons_append]
      exact (removeClient_perm id rest).cons c

/-! Generic `find?` helpers. -/

theorem find?_none_of_sublist {α : Type} {l1 l2 : List α} {p : α → Bool}
    (hs : List.Sublist l1 l2) (h : l2.find? p = none) : l1.find? p = none := by
  rw [List.find?_eq_none] at h ⊢
  exact fun a ha => h a (hs.mem ha)

theorem find?_eq_head?_filter {α : Type} (p : α → Bool) :
    ∀ l : List α, l.find? p = (l.filter p).head?
  | [] => rfl
  | a :: l => by
    by_cases h : p a
    · rw [List.find?_cons_of_pos _ h, List.filter_cons_of_pos h]
      rfl
    · rw [List.find?_cons_of_neg _ h, List.filter_cons_of_neg (by simpa using h)]
      exact find?_eq_head?_filter p l

/-- In an id-unique registry, lookup by a member's id finds exactly it. -/
theorem find?_of_mem_nodup :
    ∀ {cs : List ClientConnection} {c : ClientConnection}, (idsOf cs).Nodup → c ∈ cs →
      cs.find? (fun d => d.id == c.id) = some c
  | [], _, _, hmem => absurd hmem (List.not_mem_nil _)
  | d :: rest, c, hnd, hmem => by
    rcases List.mem_cons.mp hmem with rfl | hmem'
    · rw [List.find?_cons_of_pos _ (by simp)]
    · by_cases h : d.id = c.id
      · exfalso
        have : c.id ∈ idsOf rest := List.mem_map.mpr ⟨c, hmem', rfl⟩
        refine (List.nodup_cons.mp hnd).1 ?_
        show d.id ∈ idsOf rest
        rw [h]
        exact this
      · rw [List.find?_cons_of_neg _ (by simp [h])]
        exact find?_of_mem_nodup (List.nodup_cons.mp hnd).2 hmem'

/-- The scan does not change which ids are present, nor their order. -/
theorem idsOf_map_step (m : Message) (L : List ClientConnection) :
    idsOf (L.map (stepClient m)) = idsOf L := by
  unfold idsOf
  rw [List.map_map]
  exact List.map_congr_left (fun c _ => stepClient_id m c)

/-- Lookup by id commutes with the scan's pointwise update. -/
theorem find?_map_step (m : Message) (i : Nat) :
    ∀ L : List ClientConnection,
      (L.map (stepClient m)).find? (fun d => d.id == i) =
        (L.find? (fun d => d.id == i)).map (stepClient m)
  | [] => rfl
  | c :: rest => by
    by_cases h : c.id = i
    · rw [List.map_cons, List.find?_cons_of_pos _ (by simp [stepClient_id, h]),
        List.find?_cons_of_pos _ (by simp [h])]
      rfl
    · rw [List.map_cons, List.find?_cons_of_neg _ (by simp [stepClient_id, h]),
        List.find?_cons_of_neg _ (by simp [h])]
      exact find?_map_step m i rest

/-! Helper lemmas about the two eviction folds. -/

theorem pf_clients_sublist :
    ∀ (F : List Nat) (cs : List ClientConnection) (sp : List SpawnedEviction),
      List.Sublist (processFullIds F cs sp).1 cs
  | [], cs, _ => List.Sublist.refl cs
  | id :: ids, cs, sp => by
    have hsub := removeClient_snd_sublist id cs
    cases hrc : removeClient id cs with
    | mk o cs2 =>
      rw [hrc] at hsub
      cases o with
      | some c =>
        simp only [processFullIds, hrc]
        exact (pf_clients_sublist ids cs2 _).trans hsub
      | none =>
        simp only [processFullIds, hrc]
        exact (pf_clients_sublist ids cs2 sp).trans hsub

theorem pf_find?_ne {i : Nat} :
    ∀ (F : List Nat) (cs : List ClientConnection) (sp : List SpawnedEviction), i ∉ F →
      (processFullIds F cs sp).1.find? (fun c => c.id == i) = cs.find? (fun c => c.id == i)
  | [], _, _, _ => rfl
  | id :: ids, cs, sp, hni => by
    have hne : i ≠ id := fun he => hni (he ▸ List.mem_cons_self id ids)
    have hni' : i ∉ ids := fun hm => hni (List.mem_cons_of_mem id hm)
    cases hrc : removeClient id cs with
    | mk o cs2 =>
      have hfind : cs2.find? (fun c => c.id == i) = cs.find? (fun c => c.id == i) := by
        have h2 := removeClient_find?_ne hne cs
        rwa [hrc] at h2
      cases o with
      | some c =>
        simp only [processFullIds, hrc]
        rw [pf_find?_ne ids cs2 _ hni', hfind]
      | none =>
        simp only [processFullIds, hrc]
        rw [pf_find?_ne ids cs2 sp hni', hfind]

theorem pf_find?_mem_none {i : Nat} :
    ∀ (F : List Nat) (cs : List ClientConnection) (sp : List SpawnedEviction),
      (idsOf cs).Nodup → i ∈ F →
      (processFullIds F cs sp).1.find? (fun c => c.id == i) = none
  | [], _, _, _, hmem => absurd hmem (List.not_mem_nil i)
  | id :: ids, cs, sp, hnd, hmem => by
    cases hrc : removeClient id cs with
    | mk o cs2 =>
      have hsub : List.Sublist cs2 cs := by
        have h2 := removeClient_snd_sublist id cs
        rwa [hrc] at h2
      have hnd2 : (idsOf cs2).Nodup := hnd.sublist (hsub.map _)
      have step : ∀ sp' : List SpawnedEviction, i = id →
          (processFullIds ids cs2 sp').1.find? (fun c => c.id == i) = none := by
        intro sp' hid
        have hnone : cs2.find? (fun c => c.id == i) = none := by
          have h2 := removeClient_find?_self id cs hnd
          rw [hrc] at h2
          rw [hid]
          exact h2
        by_cases hi : i ∈ ids
        · exact pf_find?_mem_none ids cs2 sp' hnd2 hi
        · rw [pf_find?_ne ids cs2 sp' hi]
          exact hnone
      rcases List.mem_cons.mp hmem with rfl | hmem'
      · cases o with
        | some c =>
          simp only [processFullIds, hrc]
          exact step _ rfl
        | none =>
          simp only [processFullIds, hrc]
          exact step sp rfl
      · cases o with
        | some c =>
          simp only [processFullIds, hrc]
          exact pf_find?_mem_none ids cs2 _ hnd2 hmem'
        | none =>
          simp only [processFullIds, hrc]
          exact pf_find?_mem_none ids cs2 sp hnd2 hmem'

/-- The eviction fold splits the registry into survivors and removed clients
(a permutation of the input), appends exactly one teardown task per removed
client, and removes only ids that were recorded in `ids_full`. -/
theorem pf_spawned_shape :
    ∀ (F : List Nat) (cs : List ClientConnection) (sp : List SpawnedEviction),
      ∃ rem : List ClientConnection,
        List.Perm ((processFullIds F cs sp).1 ++ rem) cs ∧
        (processFullIds F cs sp).2 =
          sp ++ rem.map (fun c => { id := c.id, channel := c.channel }) ∧
        ∀ c ∈ rem, c.id ∈ F
  | [], cs, sp => ⟨[], by simp [processFullIds], by simp [processFullIds], by simp⟩
  | id :: ids, cs, sp => by
    cases hrc : removeClient id cs with
    | mk o cs2 =>
      have hperm : List.Perm (cs2 ++ o.toList) cs := by
        have h2 := removeClient_perm id cs
        rwa [hrc] at h2
      cases o with
      | some c =>
        obtain ⟨rem, hp, hsp, hid⟩ :=
          pf_spawned_shape ids cs2 (sp ++ [{ id := c.id, channel := c.channel }])
        have hcs2c : List.Perm (cs2 ++ [c]) cs := hperm
        refine ⟨c :: rem, ?_, ?_, ?_⟩
        · simp only [processFullIds, hrc]
          have s1 : List.Perm (c :: rem) (rem ++ [c]) := (List.perm_append_singleton c rem).symm
          have s2 := List.Perm.append_left (processFullIds ids cs2
            (sp ++ [{ id := c.id, channel := c.channel }])).1 s1
          rw [← List.append_assoc] at s2
          exact s2.trans ((hp.append_right [c]).trans hcs2c)
        · simp only [processFullIds, hrc]
          rw [hsp, List.append_assoc, List.singleton_append, List.map_cons]
        · intro d hd
          rcases List.mem_cons.mp hd with rfl | hd'
          · have hcid : d.id = id := by
              have h2 := removeClient_fst id cs
              rw [hrc] at h2
              have h3 := List.find?_some h2.symm
              simpa using h3
            rw [hcid]
            exact List.mem_cons_self id ids
          · exact List.mem_cons_of_mem id (hid d hd')
      | none =>
        obtain ⟨rem, hp, hsp, hid⟩ := pf_spawned_shape ids cs2 sp
        have hcs2 : List.Perm cs2 cs := by simpa using hperm
        refine ⟨rem, ?_, ?_, ?_⟩
        · simp only [processFullIds, hrc]
          exact hp.trans hcs2
        · simp only [processFullIds, hrc]
          exact hsp
        · exact fun d hd => List.mem_cons_of_mem id (hid d hd)

/-- When `i` is recorded once in `ids_full` and resolves to registry entry
`c`, the fold appends exactly one teardown task for `i`, carrying `c`'s id
and its channel exactly as it stood. -/
theorem pf_task_filter {i : Nat} :
    ∀ (F : List Nat) (cs : List ClientConnection) (sp : List SpawnedEviction)
      (c : ClientConnection), (idsOf cs).Nodup → F.Nodup → i ∈ F →
      cs.find? (fun d => d.id == i) = some c →
      ∃ more, (processFullIds F cs sp).2 = sp ++ more ∧
        more.filter (fun t => t.id == i) = [{ id := c.id, channel := c.channel }]
  | [], _, _, _, _, _, hmem, _ => absurd hmem (List.not_mem_nil i)
  | id :: ids, cs, sp, c, hnd, hF, hmem, hfind => by
    cases hrc : removeClient id cs with
    | mk o cs2 =>
      have hsub : List.Sublist cs2 cs := by
        have h2 := removeClient_snd_sublist id cs
        rwa [hrc] at h2
      have hnd2 : (idsOf cs2).Nodup := hnd.sublist (hsub.map _)
      rcases List.mem_cons.mp hmem with rfl | hmem'
      · have ho : o = some c := by
          have h2 := removeClient_fst i cs
          rw [hrc, hfind] at h2
          exact h2
        subst ho
        simp only [processFullIds, hrc]
        have hiids : i ∉ ids := (List.nodup_cons.mp hF).1
        obtain ⟨rem2, _, hsp2, hids2⟩ :=
          pf_spawned_shape ids cs2 (sp ++ [{ id := c.id, channel := c.channel }])
        refine ⟨{ id := c.id, channel := c.channel } ::
          rem2.map (fun d => { id := d.id, channel := d.channel }), ?_, ?_⟩
        · rw [hsp2, List.append_assoc, List.singleton_append]
        · have hci : (({ id := c.id, channel := c.channel } : SpawnedEviction).id == i) = true := by
            have h3 := List.find?_some hfind
            simpa using h3
          rw [List.filter_cons]
          simp only [hci, if_true]
          have hnil : (rem2.map (fun d =>
              ({ id := d.id, channel := d.channel } : SpawnedEviction))).filter
                (fun t => t.id == i) = [] := by
            rw [List.filter_eq_nil_iff]
            intro t ht
            obtain ⟨d, hd, rfl⟩ := List.mem_map.mp ht
            have hdid : d.id ∈ ids := hids2 d hd
            simp only [beq_iff_eq]
            intro he
            exact hiids (he ▸ hdid)
          rw [hnil]
      · have hne : i ≠ id := fun he => (List.nodup_cons.mp hF).1 (he ▸ hmem')
        have hfind2 : cs2.find? (fun d => d.id == i) = some c := by
          have h2 := removeClient_find?_ne hne cs
          rw [hrc] at h2
          exact h2.trans hfind
        have hF2 : ids.Nodup := (List.nodup_cons.mp hF).2
        cases o with
        | some d =>
          have hdid : (d.id == i) = false := by
            have h2 := removeClient_fst id cs
            rw [hrc] at h2
            have h3 := List.find?_some h2.symm
            have h4 : d.id = id := by simpa using h3
            simp [h4, Ne.symm hne]
          simp only [processFullIds, hrc]
          obtain ⟨more, hsp, hfil⟩ :=
            pf_task_filter ids cs2 (sp ++ [{ id := d.id, channel := d.channel }]) c
              hnd2 hF2 hmem' hfind2
          refine ⟨{ id := d.id, channel := d.channel } :: more, ?_, ?_⟩
          · rw [hsp, List.append_assoc, List.singleton_append]
          · rw [List.filter_cons]
            simp only [hdid, Bool.false_eq_true, if_false]
            exact hfil
        | none =>
          simp only [processFullIds, hrc]
          exact pf_task_filter ids cs2 sp c hnd2 hF2 hmem' hfind2

theorem pc_clients_sublist :
    ∀ (C : List Nat) (cs : List ClientConnection) (g : Int),
      List.Sublist (processClosedIds C cs g).1 cs
  | [], cs, _ => List.Sublist.refl cs
  | id :: ids, cs, g => by
    have hsub := removeClient_snd_sublist id cs
    cases hrc : removeClient id cs with
    | mk o cs2 =>
      rw [hrc] at hsub
      cases o with
      | some c =>
        simp only [processClosedIds, hrc]
        exact (pc_clients_sublist ids cs2 _).trans hsub
      | none =>
        simp only [processClosedIds, hrc]
        exact (pc_clients_sublist ids cs2 g).trans hsub

theorem pc_find?_ne {i : Nat} :
    ∀ (C : List Nat) (cs : List ClientConnection) (g : Int), i ∉ C →
      (processClosedIds C cs g).1.find? (fun c => c.id == i) = cs.find? (fun c => c.id == i)
  | [], _, _, _ => rfl
  | id :: ids, cs, g, hni => by
    have hne : i ≠ id := fun he => hni (he ▸ List.mem_cons_self id ids)
    have hni' : i ∉ ids := fun hm => hni (List.mem_cons_of_mem id hm)
    cases hrc : removeClient id cs with
    | mk o cs2 =>
      have hfind : cs2.find? (fun c => c.id == i) = cs.find? (fun c => c.id == i) := by
        have h2 := removeClient_find?_ne hne cs
        rwa [hrc] at h2
      cases o with
      | some c =>
        simp only [processClosedIds, hrc]
        rw [pc_find?_ne ids cs2 _ hni', hfind]
      | none =>
        simp only [processClosedIds, hrc]
        rw [pc_find?_ne ids cs2 g hni', hfind]

theorem pc_find?_mem_none {i : Nat} :
    ∀ (C : List Nat) (cs : List ClientConnection) (g : Int),
      (idsOf cs).Nodup → i ∈ C →
      (processClosedIds C cs g).1.find? (fun c => c.id == i) = none
  | [], _, _, _, hmem => absurd hmem (List.not_mem_nil i)
  | id :: ids, cs, g, hnd, hmem => by
    cases hrc : removeClient id cs with
    | mk o cs2 =>
      have hsub : List.Sublist cs2 cs := by
        have h2 := removeClient_snd_sublist id cs
        rwa [hrc] at h2
      have hnd2 : (idsOf cs2).Nodup := hnd.sublist (hsub.map _)
      have step : ∀ g' : Int, i = id →
          (processClosedIds ids cs2 g').1.find? (fun c => c.id == i) = none := by
        intro g' hid
        have hnone : cs2.find? (fun c => c.id == i) = none := by
          have h2 := removeClient_find?_self id cs hnd
          rw [hrc] at h2
          rw [hid]
          exact h2
        by_cases hi : i ∈ ids
        · exact pc_find?_mem_none ids cs2 g' hnd2 hi
        · rw [pc_find?_ne ids cs2 g' hi]
          exact hnone
      rcases List.mem_cons.mp hmem with rfl | hmem'
      · cases o with
        | some c =>
          simp only [processClosedIds, hrc]
          exact step _ rfl
        | none =>
          simp only [processClosedIds, hrc]
          exact step g rfl
      · cases o with
        | some c =>
          simp only [processClosedIds, hrc]
          exact pc_find?_mem_none ids cs2 _ hnd2 hmem'
        | none =>
          simp only [processClosedIds, hrc]
          exact pc_find?_mem_none ids cs2 g hnd2 hmem'

/-- The silent-eviction fold removes clients without ever touching any
spawned task, and splits the registry like the lagged fold does. -/
theorem pc_spawned_shape :
    ∀ (C : List Nat) (cs : List ClientConnection) (g : Int),
      ∃ rem : List ClientConnection,
        List.Perm ((processClosedIds C cs g).1 ++ rem) cs ∧
        (processClosedIds C cs g).2 = g - rem.length ∧
        ∀ c ∈ rem, c.id ∈ C
  | [], cs, g => ⟨[], by simp [processClosedIds], by simp [processClosedIds], by simp⟩
  | id :: ids, cs, g => by
    cases hrc : removeClient id cs with
    | mk o cs2 =>
      have hperm : List.Perm (cs2 ++ o.toList) cs := by
        have h2 := removeClient_perm id cs
        rwa [hrc] at h2
      cases o with
      | some c =>
        obtain ⟨rem, hp, hg, hid⟩ := pc_spawned_shape ids cs2 (g - 1)
        have hcs2c : List.Perm (cs2 ++ [c]) cs := hperm
        refine ⟨c :: rem, ?_, ?_, ?_⟩
        · simp only [processClosedIds, hrc]
          have s1 : List.Perm (c :: rem) (rem ++ [c]) := (List.perm_append_singleton c rem).symm
          have s2 := List.Perm.append_left (processClosedIds ids cs2 (g - 1)).1 s1
          rw [← List.append_assoc] at s2
          exact s2.trans ((hp.append_right [c]).trans hcs2c)
        · simp only [processClosedIds, hrc]
          rw [hg, List.length_cons]
          push_cast
          ring
        · intro d hd
          rcases List.mem_cons.mp hd with rfl | hd'
          · have hcid : d.id = id := by
              have h2 := removeClient_fst id cs
              rw [hrc] at h2
              have h3 := List.find?_some h2.symm
              simpa using h3
            rw [hcid]
            exact List.mem_cons_self id ids
          · exact List.mem_cons_of_mem id (hid d hd')
      | none =>
        obtain ⟨rem, hp, hg, hid⟩ := pc_spawned_shape ids cs2 g
        have hcs2 : List.Perm cs2 cs := by simpa using hperm
        refine ⟨rem, ?_, ?_, ?_⟩
        · simp only [processClosedIds, hrc]
          exact hp.trans hcs2
        · simp only [processClosedIds, hrc]
          exact hg
        · exact fun d hd => List.mem_cons_of_mem id (hid d hd)

/-- When every recorded closed id is distinct and still present, the silent
fold decrements the gauge exactly once per recorded id. -/
theorem pc_gauge :
    ∀ (C : List Nat) (cs : List ClientConnection) (g : Int),
      (idsOf cs).Nodup → C.Nodup →
      (∀ j ∈ C, (cs.find? (fun d => d.id == j)).isSome) →
      (processClosedIds C cs g).2 = g - C.length
  | [], _, g, _, _, _ => by simp [processClosedIds]
  | id :: ids, cs, g, hnd, hC, hpres => by
    have hsome := hpres id (List.mem_cons_self id ids)
    obtain ⟨d, hd⟩ := Option.isSome_iff_exists.mp hsome
    have ho : (removeClient id cs).1 = some d := by
      rw [removeClient_fst id cs, hd]
    cases hrc : removeClient id cs with
    | mk o cs2 =>
      rw [hrc] at ho
      subst ho
      have hsub : List.Sublist cs2 cs := by
        have h2 := removeClient_snd_sublist id cs
        rwa [hrc] at h2
      have hnd2 : (idsOf cs2).Nodup := hnd.sublist (hsub.map _)
      have hpres2 : ∀ j ∈ ids, (cs2.find? (fun e => e.id == j)).isSome := by
        intro j hj
        have hne : j ≠ id := fun he => (List.nodup_cons.mp hC).1 (he ▸ hj)
        have h2 := removeClient_find?_ne hne cs
        rw [hrc] at h2
        have h3 : cs2.find? (fun e => e.id == j) = cs.find? (fun e => e.id == j) := h2
        rw [h3]
        exact hpres j (List.mem_cons_of_mem id hj)
      simp only [processClosedIds, hrc]
      rw [pc_gauge ids cs2 (g - 1) hnd2 (List.nodup_cons.mp hC).2 hpres2, List.length_cons]
      push_cast
      ring

/-! Dispatch-level helper lemmas. -/

theorem dispatchEvent_eq (m : Message) (st : LoopState) (r : ScanResult)
    (hscan : scanClients m st.clients = .ok r) :
    dispatchEvent m st = .ok
      { clients := (processClosedIds r.ids_closed
          (processFullIds r.ids_full r.clients st.spawned).1 st.connections_total).1,
        connections_total := (processClosedIds r.ids_closed
          (processFullIds r.ids_full r.clients st.spawned).1 st.connections_total).2,
        spawned := (processFullIds r.ids_full r.clients st.spawned).2 } := by
  simp only [dispatchEvent, hscan]

theorem dispatch_ok_scan {m : Message} {st st' : LoopState}
    (h : dispatchEvent m st = .ok st') : ∃ r, scanClients m st.clients = .ok r := by
  cases hs : scanClients m st.clients with
  | panicked cs =>
    simp only [dispatchEvent, hs] at h
    exact DispatchOutcome.noConfusion h
  | ok r => exact ⟨r, rfl⟩

theorem dispatch_ok_inv {m : Message} {st st' : LoopState}
    (h : dispatchEvent m st = .ok st') :
    ∃ r, scanClients m st.clients = .ok r ∧
      st' = { clients := (processClosedIds r.ids_closed
                (processFullIds r.ids_full r.clients st.spawned).1 st.connections_total).1,
              connections_total := (processClosedIds r.ids_closed
                (processFullIds r.ids_full r.clients st.spawned).1 st.connections_total).2,
              spawned := (processFullIds r.ids_full r.clients st.spawned).2 } := by
  obtain ⟨r, hs⟩ := dispatch_ok_scan h
  rw [dispatchEvent_eq m st r hs] at h
  injection h with h2
  exact ⟨r, hs, h2.symm⟩

theorem dispatch_spawned_mono {m : Message} {st st' : LoopState}
    (h : dispatchEvent m st = .ok st') : ∃ new, st'.spawned = st.spawned ++ new := by
  obtain ⟨r, _, hst⟩ := dispatch_ok_inv h
  obtain ⟨rem1, _, hsp1, _⟩ := pf_spawned_shape r.ids_full r.clients st.spawned
  subst hst
  exact ⟨rem1.map (fun c => { id := c.id, channel := c.channel }), hsp1⟩

/-- Ids are conserved: a split of a registry fragment into survivors and a
removed remainder adds up, at the multiset level, to the original ids. -/
theorem perm_ids_add {A rem cs : List ClientConnection}
    (hp : List.Perm (A ++ rem) cs) :
    (↑(idsOf A) : Multiset Nat) + ↑(idsOf rem) = ↑(idsOf cs) := by
  have h2 := hp.map (fun c => c.id)
  rw [List.map_append] at h2
  have h3 := Multiset.coe_eq_coe.mpr h2
  rw [← Multiset.coe_add] at h3
  exact h3

/-- A completed dispatch pass never invents ids: every id alive afterwards
(registered or in a pending teardown task) was alive before, and pairwise
distinctness of the live ids is preserved. -/
theorem dispatch_allIds_nodup {m : Message} {st st' : LoopState}
    (h : dispatchEvent m st = .ok st') (hnd : (allIds st).Nodup) : (allIds st').Nodup := by
  obtain ⟨r, hs, hst⟩ := dispatch_ok_inv h
  obtain ⟨_, hr⟩ := scan_ok_inv m st.clients r hs
  obtain ⟨rem1, hp1, hsp1, _⟩ := pf_spawned_shape r.ids_full r.clients st.spawned
  obtain ⟨rem2, hp2, _, _⟩ := pc_spawned_shape r.ids_closed
    (processFullIds r.ids_full r.clients st.spawned).1 st.connections_total
  have hidsr : idsOf r.clients = idsOf st.clients := by
    rw [hr]
    exact idsOf_map_step m st.clients
  have m1 := perm_ids_add hp1
  have m2 := perm_ids_add hp2
  rw [hidsr] at m1
  have hBA : (↑(idsOf (processClosedIds r.ids_closed
      (processFullIds r.ids_full r.clients st.spawned).1 st.connections_total).1) : Multiset Nat)
      ≤ ↑(idsOf (processFullIds r.ids_full r.clients st.spawned).1) :=
    Multiset.le_iff_exists_add.mpr ⟨↑(idsOf rem2), m2.symm⟩
  have key : (↑(idsOf (processClosedIds r.ids_closed
      (processFullIds r.ids_full r.clients st.spawned).1 st.connections_total).1) : Multiset Nat)
      + ↑(idsOf rem1) ≤ ↑(idsOf st.clients) := by
    rw [← m1]
    exact add_le_add_right hBA _
  have htask : taskIds ((processFullIds r.ids_full r.clients st.spawned).2) =
      taskIds st.spawned ++ idsOf rem1 := by
    rw [hsp1]
    unfold taskIds idsOf
    rw [List.map_append, List.map_map]
    rfl
  subst hst
  show (idsOf (processClosedIds r.ids_closed
      (processFullIds r.ids_full r.clients st.spawned).1 st.connections_total).1
    ++ taskIds ((processFullIds r.ids_full r.clients st.spawned).2)).Nodup
  rw [htask]
  rw [← Multiset.coe_nodup] at hnd ⊢
  refine Multiset.nodup_of_le ?_ hnd
  unfold allIds at hnd ⊢
  rw [← Multiset.coe_add, ← Multiset.coe_add, ← Multiset.coe_add]
  calc (↑(idsOf (processClosedIds r.ids_closed
          (processFullIds r.ids_full r.clients st.spawned).1 st.connections_total).1) : Multiset Nat)
        + (↑(taskIds st.spawned) + ↑(idsOf rem1))
      = (↑(idsOf (processClosedIds r.ids_closed
          (processFullIds r.ids_full r.clients st.spawned).1 st.connections_total).1)
        + ↑(idsOf rem1)) + ↑(taskIds st.spawned) := by
        abel
    _ ≤ ↑(idsOf st.clients) + ↑(taskIds st.spawned) := add_le_add_right key _

theorem channelOf_clients {st : LoopState} {i : Nat} {c : ClientConnection}
    (h : st.clients.find? (fun d => d.id == i) = some c) : channelOf st i = some c.channel := by
  unfold channelOf
  rw [h]

theorem channelOf_spawned {st : LoopState} {i : Nat}
    (h : st.clients.find? (fun d => d.id == i) = none) :
    channelOf st i = (st.spawned.find? (fun t => t.id == i)).map (fun t => t.channel) := by
  unfold channelOf
  rw [h]

/-- In an id-unique fragment, two members with the same id coincide. -/
theorem eq_of_mem_id {L : List ClientConnection} (hnd : (idsOf L).Nodup)
    {c d : ClientConnection} (hc : c ∈ L) (hd : d ∈ L) (hid : c.id = d.id) : c = d := by
  have h1 := find?_of_mem_nodup hnd hc
  have h2 := find?_of_mem_nodup hnd hd
  rw [hid] at h1
  rw [h1] at h2
  exact Option.some.inj h2

theorem fullSel_eq_none_of_out {m : Message} {c c1 : ClientConnection} {out : ClientOutcome}
    (hstep : clientStep m c = some (c1, out)) (hne : out ≠ .full) : fullSel m c = none := by
  unfold fullSel
  rw [hstep]
  cases out with
  | full => exact absurd rfl hne
  | skipped => rfl
  | sent => rfl
  | closed => rfl

theorem fullSel_eq_some_of_out {m : Message} {c c1 : ClientConnection}
    (hstep : clientStep m c = some (c1, .full)) : fullSel m c = some c.id := by
  unfold fullSel
  rw [hstep]

theorem closedSel_eq_none_of_out {m : Message} {c c1 : ClientConnection} {out : ClientOutcome}
    (hstep : clientStep m c = some (c1, out)) (hne : out ≠ .closed) : closedSel m c = none := by
  unfold closedSel
  rw [hstep]
  cases out with
  | closed => exact absurd rfl hne
  | skipped => rfl
  | sent => rfl
  | full => rfl

theorem closedSel_eq_some_of_out {m : Message} {c c1 : ClientConnection}
    (hstep : clientStep m c = some (c1, .closed)) : closedSel m c = some c.id := by
  unfold closedSel
  rw [hstep]

theorem attemptSel_eq_none_of_skipped {m : Message} {c c1 : ClientConnection}
    (hstep : clientStep m c = some (c1, .skipped)) : attemptSel m c = none := by
  unfold attemptSel
  rw [hstep]

/-- A member whose selector is `none` contributes nothing: its id cannot show
up in the collected list when ids are unique. -/
theorem not_mem_filterMap_sel {m : Message} {L : List ClientConnection} {c : ClientConnection}
    (sel : Message → ClientConnection → Option Nat)
    (hshape : ∀ d, sel m d = none ∨ sel m d = some d.id)
    (hnd : (idsOf L).Nodup) (hmem : c ∈ L) (hc : sel m c = none) :
    c.id ∉ L.filterMap (sel m) := by
  intro hmemf
  obtain ⟨d, hd, hdeq⟩ := List.mem_filterMap.mp hmemf
  rcases hshape d with hn | hsome
  · rw [hn] at hdeq
    exact Option.noConfusion hdeq
  · rw [hsome] at hdeq
    have hid : d.id = c.id := Option.some.inj hdeq
    have hdc : d = c := eq_of_mem_id hnd hd hmem hid
    rw [hdc, hc] at hsome
    exact Option.noConfusion hsome

theorem stepClient_eq_of_step {m : Message} {c c1 : ClientConnection} {out : ClientOutcome}
    (hstep : clientStep m c = some (c1, out)) : stepClient m c = c1 := by
  unfold stepClient
  rw [hstep]

/-- Once a subscriber's id is gone from the coordinator entirely, no dispatch
pass brings it back. -/
theorem dispatch_channelOf_none {m : Message} {st st' : LoopState}
    (h : dispatchEvent m st = .ok st') {i : Nat}
    (hch : channelOf st i = none) : channelOf st' i = none := by
  obtain ⟨r, hs, hst⟩ := dispatch_ok_inv h
  obtain ⟨_, hr⟩ := scan_ok_inv m st.clients r hs
  have hclients2 : st'.clients = (processClosedIds r.ids_closed
      (processFullIds r.ids_full r.clients st.spawned).1 st.connections_total).1 := by
    rw [hst]
  have hspawned2 : st'.spawned = (processFullIds r.ids_full r.clients st.spawned).2 := by
    rw [hst]
  cases hc : st.clients.find? (fun d => d.id == i) with
  | some c =>
    rw [channelOf_clients hc] at hch
    exact absurd hch (by simp)
  | none =>
    rw [channelOf_spawned hc] at hch
    have hfs : st.spawned.find? (fun t => t.id == i) = none := Option.map_eq_none'.mp hch
    obtain ⟨rem1, hp1, hsp1, hid1⟩ := pf_spawned_shape r.ids_full r.clients st.spawned
    have hfrn : r.clients.find? (fun d => d.id == i) = none := by
      rw [hr]
      show (st.clients.map (stepClient m)).find? (fun d => d.id == i) = none
      rw [find?_map_step, hc]
      rfl
    have hBsub : List.Sublist (processClosedIds r.ids_closed
        (processFullIds r.ids_full r.clients st.spawned).1 st.connections_total).1 r.clients :=
      (pc_clients_sublist _ _ _).trans (pf_clients_sublist _ _ _)
    have hfB := find?_none_of_sublist hBsub hfrn
    have hnotF : i ∉ r.ids_full := by
      intro hmem
      have hmem2 : i ∈ st.clients.filterMap (fullSel m) := by
        rw [hr] at hmem
        exact hmem
      obtain ⟨d, hd, hdeq⟩ := List.mem_filterMap.mp hmem2
      rcases fullSel_shape m d with hn | hsome
      · rw [hn] at hdeq
        exact Option.noConfusion hdeq
      · rw [hsome] at hdeq
        have hdi : d.id = i := Option.some.inj hdeq
        exact (List.find?_eq_none.mp hc d hd) (by simp [hdi])
    have hfSP : ((processFullIds r.ids_full r.clients st.spawned).2).find?
        (fun t => t.id == i) = none := by
      rw [hsp1, List.find?_append, hfs, Option.none_or, List.find?_eq_none]
      intro t ht hbeq
      obtain ⟨d, hd, rfl⟩ := List.mem_map.mp ht
      have hdF : d.id ∈ r.ids_full := hid1 d hd
      have hti : d.id = i := by simpa using hbeq
      exact hnotF (hti ▸ hdF)
    unfold channelOf
    rw [hclients2, hfB, hspawned2, hfSP]
    rfl

/-- Channel evolution across one completed dispatch pass, for any subscriber
alive anywhere in the coordinator: its channel either disappears (silent
eviction), or survives with either an unchanged queue or exactly the current
event's wire message appended. -/
theorem dispatch_channelOf {m : Message} {st st' : LoopState}
    (hnd : (allIds st).Nodup) (h : dispatchEvent m st = .ok st')
    {i : Nat} {ch : Channel} (hch : channelOf st i = some ch) :
    channelOf st' i = none ∨
      ∃ ch', channelOf st' i = some ch' ∧
        (ch'.queue = ch.queue ∨ ∃ fs, ch'.queue = ch.queue ++
          [Except.ok { filters := fs, update_oneof := some (toUpdateOneof m) }]) := by
  obtain ⟨r, hs, hst⟩ := dispatch_ok_inv h
  obtain ⟨htot, hr⟩ := scan_ok_inv m st.clients r hs
  obtain ⟨hnd1, hnd2, hdisj⟩ := List.nodup_append.mp hnd
  have hclients2 : st'.clients = (processClosedIds r.ids_closed
      (processFullIds r.ids_full r.clients st.spawned).1 st.connections_total).1 := by
    rw [hst]
  have hspawned2 : st'.spawned = (processFullIds r.ids_full r.clients st.spawned).2 := by
    rw [hst]
  have hndr : (idsOf r.clients).Nodup := by
    rw [hr]
    show (idsOf (st.clients.map (stepClient m))).Nodup
    rw [idsOf_map_step]
    exact hnd1
  have hidsfull : r.ids_full = st.clients.filterMap (fullSel m) := by
    rw [hr]
  have hidsclosed : r.ids_closed = st.clients.filterMap (closedSel m) := by
    rw [hr]
  cases hc : st.clients.find? (fun d => d.id == i) with
  | none =>
    rw [channelOf_spawned hc] at hch
    cases hfs : st.spawned.find? (fun t => t.id == i) with
    | none =>
      rw [hfs] at hch
      exact absurd hch (by simp)
    | some t =>
      rw [hfs] at hch
      have htch : t.channel = ch := by simpa using hch
      obtain ⟨rem1, hp1, hsp1, hid1⟩ := pf_spawned_shape r.ids_full r.clients st.spawned
      have hfrn : r.clients.find? (fun d => d.id == i) = none := by
        rw [hr]
        show (st.clients.map (stepClient m)).find? (fun d => d.id == i) = none
        rw [find?_map_step, hc]
        rfl
      have hBsub : List.Sublist (processClosedIds r.ids_closed
          (processFullIds r.ids_full r.clients st.spawned).1 st.connections_total).1 r.clients :=
        (pc_clients_sublist _ _ _).trans (pf_clients_sublist _ _ _)
      have hfB := find?_none_of_sublist hBsub hfrn
      refine Or.inr ⟨t.channel, ?_, Or.inl ?_⟩
      · unfold channelOf
        rw [hclients2, hfB, hspawned2, hsp1, List.find?_append, hfs]
        rfl
      · rw [htch]
  | some c =>
    have hcch : c.channel = ch := by
      have h2 := channelOf_clients hc
      rw [h2] at hch
      exact Option.some.inj hch
    have hcid : c.id = i := by simpa using List.find?_some hc
    have hcmem : c ∈ st.clients := List.mem_of_find?_eq_some hc
    have hiids : i ∈ idsOf st.clients := List.mem_map.mpr ⟨c, hcmem, hcid⟩
    have hfsp : st.spawned.find? (fun t => t.id == i) = none := by
      rw [List.find?_eq_none]
      intro t ht hbeq
      have hti : t.id = i := by simpa using hbeq
      refine hdisj hiids ?_
      rw [← hti]
      exact List.mem_map.mpr ⟨t, ht, rfl⟩
    obtain ⟨p, hp⟩ := Option.isSome_iff_exists.mp (htot c hcmem)
    obtain ⟨c1, out⟩ := p
    have hstep : stepClient m c = c1 := stepClient_eq_of_step hp
    have hfr : r.clients.find? (fun d => d.id == i) = some (stepClient m c) := by
      rw [hr]
      show (st.clients.map (stepClient m)).find? (fun d => d.id == i) = _
      rw [find?_map_step, hc]
      rfl
    cases out with
    | skipped =>
      have hc1 : c1 = c := clientStep_skipped hp
      have hnf : i ∉ r.ids_full := by
        rw [hidsfull, ← hcid]
        exact not_mem_filterMap_sel fullSel (fullSel_shape m) hnd1 hcmem
          (fullSel_eq_none_of_out hp (fun hx => ClientOutcome.noConfusion hx))
      have hnc : i ∉ r.ids_closed := by
        rw [hidsclosed, ← hcid]
        exact not_mem_filterMap_sel closedSel (closedSel_shape m) hnd1 hcmem
          (closedSel_eq_none_of_out hp (fun hx => ClientOutcome.noConfusion hx))
      have hfB : (processClosedIds r.ids_closed
          (processFullIds r.ids_full r.clients st.spawned).1 st.connections_total).1.find?
            (fun d => d.id == i) = some (stepClient m c) := by
        rw [pc_find?_ne _ _ _ hnc, pf_find?_ne _ _ _ hnf]
        exact hfr
      refine Or.inr ⟨(stepClient m c).channel, ?_, Or.inl ?_⟩
      · unfold channelOf
        rw [hclients2, hfB]
      · rw [hstep, hc1, hcch]
    | sent =>
      obtain ⟨fs, _, _, _, hqueue, _⟩ := clientStep_sent hp
      have hnf : i ∉ r.ids_full := by
        rw [hidsfull, ← hcid]
        exact not_mem_filterMap_sel fullSel (fullSel_shape m) hnd1 hcmem
          (fullSel_eq_none_of_out hp (fun hx => ClientOutcome.noConfusion hx))
      have hnc : i ∉ r.ids_closed := by
        rw [hidsclosed, ← hcid]
        exact not_mem_filterMap_sel closedSel (closedSel_shape m) hnd1 hcmem
          (closedSel_eq_none_of_out hp (fun hx => ClientOutcome.noConfusion hx))
      have hfB : (processClosedIds r.ids_closed
          (processFullIds r.ids_full r.clients st.spawned).1 st.connections_total).1.find?
            (fun d => d.id == i) = some (stepClient m c) := by
        rw [pc_find?_ne _ _ _ hnc, pf_find?_ne _ _ _ hnf]
        exact hfr
      refine Or.inr ⟨(stepClient m c).channel, ?_, Or.inr ⟨fs, ?_⟩⟩
      · unfold channelOf
        rw [hclients2, hfB]
      · rw [hstep, hqueue, hcch]
    | full =>
      have hc1 : c1 = c := clientStep_full hp
      have himem : i ∈ r.ids_full := by
        rw [hidsfull, ← hcid]
        exact List.mem_filterMap.mpr ⟨c, hcmem, fullSel_eq_some_of_out hp⟩
      have hnc : i ∉ r.ids_closed := by
        rw [hidsclosed, ← hcid]
        exact not_mem_filterMap_sel closedSel (closedSel_shape m) hnd1 hcmem
          (closedSel_eq_none_of_out hp (fun hx => ClientOutcome.noConfusion hx))
      have hfB : (processClosedIds r.ids_closed
          (processFullIds r.ids_full r.clients st.spawned).1 st.connections_total).1.find?
            (fun d => d.id == i) = none := by
        rw [pc_find?_ne _ _ _ hnc]
        exact pf_find?_mem_none r.ids_full r.clients st.spawned hndr himem
      have hFnd : r.ids_full.Nodup := by
        rw [hidsfull]
        exact hnd1.sublist (filterMap_sublist_map _ _ (fullSel_shape m) st.clients)
      have hfrc : r.clients.find? (fun d => d.id == i) = some c := by
        rw [hfr, hstep, hc1]
      obtain ⟨more, hsp, hfil⟩ :=
        pf_task_filter r.ids_full r.clients st.spawned c hndr hFnd himem hfrc
      have hfSP : ((processFullIds r.ids_full r.clients st.spawned).2).find?
          (fun t => t.id == i) = some { id := c.id, channel := c.channel } := by
        rw [hsp, List.find?_append, hfsp, Option.none_or, find?_eq_head?_filter, hfil]
        rfl
      refine Or.inr ⟨c.channel, ?_, Or.inl ?_⟩
      · unfold channelOf
        rw [hclients2, hfB, hspawned2, hfSP]
        rfl
      · rw [hcch]
    | closed =>
      have himem : i ∈ r.ids_closed := by
        rw [hidsclosed, ← hcid]
        exact List.mem_filterMap.mpr ⟨c, hcmem, closedSel_eq_some_of_out hp⟩
      have hnf : i ∉ r.ids_full := by
        rw [hidsfull, ← hcid]
        exact not_mem_filterMap_sel fullSel (fullSel_shape m) hnd1 hcmem
          (fullSel_eq_none_of_out hp (fun hx => ClientOutcome.noConfusion hx))
      have hndA : (idsOf (processFullIds r.ids_full r.clients st.spawned).1).Nodup :=
        hndr.sublist ((pf_clients_sublist _ _ _).map _)
      have hfA : (processFullIds r.ids_full r.clients st.spawned).1.find?
          (fun d => d.id == i) = some (stepClient m c) := by
        rw [pf_find?_ne _ _ _ hnf]
        exact hfr
      have hfB : (processClosedIds r.ids_closed
          (processFullIds r.ids_full r.clients st.spawned).1 st.connections_total).1.find?
            (fun d => d.id == i) = none :=
        pc_find?_mem_none r.ids_closed _ st.connections_total hndA himem
      obtain ⟨rem1, hp1, hsp1, hid1⟩ := pf_spawned_shape r.ids_full r.clients st.spawned
      have hfSP : ((processFullIds r.ids_full r.clients st.spawned).2).find?
          (fun t => t.id == i) = none := by
        rw [hsp1, List.find?_append, hfsp, Option.none_or, List.find?_eq_none]
        intro t ht hbeq
        obtain ⟨d, hd, rfl⟩ := List.mem_map.mp ht
        have hdF : d.id ∈ r.ids_full := hid1 d hd
        have hti : d.id = i := by simpa using hbeq
        exact hnf (hti ▸ hdF)
      refine Or.inl ?_
      unfold channelOf
      rw [hclients2, hfB, hspawned2, hfSP]
      rfl

/-! Event-sequence lemmas. -/

theorem processEvents_none :
    ∀ (msgs : List Message) (st st' : LoopState) (i : Nat),
      processEvents msgs st = .ok st' → channelOf st i = none → channelOf st' i = none
  | [], st, st', i, hrun, hch => by
    injection hrun with h2
    rw [← h2]
    exact hch
  | msg :: rest, st, st', i, hrun, hch => by
    cases hd : dispatchEvent msg st with
    | panicked st1 =>
      simp only [processEvents, hd] at hrun
      exact DispatchOutcome.noConfusion hrun
    | ok st1 =>
      simp only [processEvents, hd] at hrun
      exact processEvents_none rest st1 st' i hrun (dispatch_channelOf_none hd hch)

/-- Channel evolution across a whole FIFO event sequence: the queue of any
subscriber still alive at the end is its original queue followed by a batch
of data messages whose payloads select, in order, from the dispatched events. -/
theorem processEvents_channelOf :
    ∀ (msgs : List Message) (st st' : LoopState), (allIds st).Nodup →
      processEvents msgs st = .ok st' →
      ∀ (i : Nat) (ch ch' : Channel), channelOf st i = some ch → channelOf st' i = some ch' →
      ∃ extra, ch'.queue = ch.queue ++ extra ∧
        List.Sublist (okPayloads extra) (msgs.map toUpdateOneof)
  | [], st, st', _, hrun, i, ch, ch', hch, hch' => by
    injection hrun with h2
    rw [← h2] at hch'
    rw [hch] at hch'
    refine ⟨[], ?_, by simp [okPayloads]⟩
    rw [← Option.some.inj hch', List.append_nil]
  | msg :: rest, st, st', hnd, hrun, i, ch, ch', hch, hch' => by
    cases hd : dispatchEvent msg st with
    | panicked st1 =>
      simp only [processEvents, hd] at hrun
      exact DispatchOutcome.noConfusion hrun
    | ok st1 =>
      simp only [processEvents, hd] at hrun
      have hnd1 := dispatch_allIds_nodup hd hnd
      rcases dispatch_channelOf hnd hd hch with hnone | ⟨ch1, hch1, hq⟩
      · exfalso
        have hn := processEvents_none rest st1 st' i hrun hnone
        rw [hn] at hch'
        exact Option.noConfusion hch'
      · obtain ⟨extra, hq', hsub⟩ :=
          processEvents_channelOf rest st1 st' hnd1 hrun i ch1 ch' hch1 hch'
        rcases hq with hsame | ⟨fs, happ⟩
        · refine ⟨extra, ?_, ?_⟩
          · rw [hq', hsame]
          · rw [List.map_cons]
            exact hsub.cons _
        · refine ⟨Except.ok { filters := fs, update_oneof := some (toUpdateOneof msg) }
            :: extra, ?_, ?_⟩
          · rw [hq', happ, List.append_assoc, List.singleton_append]
          · rw [List.map_cons]
            have hok : okPayloads (Except.ok { filters := fs,
                                               update_oneof := some (toUpdateOneof msg) }
                :: extra) = toUpdateOneof msg :: okPayloads extra := rfl
            rw [hok]
            exact hsub.cons₂ _

/-! The ten claims, one theorem each (with concrete witnesses below). -/

/-- Claim C2: for every ingested event and every subscriber, the coordinator
attempts at most one delivery of that event to that subscriber; no subscriber
ever receives two deliveries for the same ingested event.  Formally: over one
dispatch pass the (ghost) list of subscriber ids for which `try_send` was
called is duplicate-free and drawn, in order, from the registry's distinct
ids; and any subscriber's delivery queue grows by at most one message — the
current event's wire message — during the pass.  Eviction is applied in the
same pass (see C1), so a removed subscriber cannot be retried. -/
theorem at_most_once_dispatch (m : Message) (st : LoopState) (r : ScanResult)
    (hnd : (allIds st).Nodup) (hscan : scanClients m st.clients = .ok r) :
    r.attempts.Nodup ∧ List.Sublist r.attempts (idsOf st.clients) ∧
    (∀ st', dispatchEvent m st = .ok st' →
      ∀ i ch ch', channelOf st i = some ch → channelOf st' i = some ch' →
        ch'.queue = ch.queue ∨ ∃ fs, ch'.queue = ch.queue ++
          [Except.ok { filters := fs, update_oneof := some (toUpdateOneof m) }]) := by
  obtain ⟨hnd1, _, _⟩ := List.nodup_append.mp hnd
  obtain ⟨_, hr⟩ := scan_ok_inv m st.clients r hscan
  have hsub : List.Sublist r.attempts (idsOf st.clients) := by
    rw [hr]
    show List.Sublist (st.clients.filterMap (attemptSel m)) _
    exact filterMap_sublist_map _ _ (attemptSel_shape m) st.clients
  refine ⟨hnd1.sublist hsub, hsub, ?_⟩
  intro st' hd i ch ch' hch hch'
  rcases dispatch_channelOf hnd hd hch with hnone | ⟨ch2, hch2, hq⟩
  · rw [hnone] at hch'
    exact Option.noConfusion hch'
  · rw [hch2] at hch'
    obtain rfl := Option.some.inj hch'
    exact hq

/-- Claim C3: for every subscriber and every sequence of ingested events
processed in ingestion order, the data messages delivered to that subscriber
form an order-preserving subsequence of the event sequence (by wire payload). -/
theorem ordering_preserved (msgs : List Message) (st st' : LoopState) (i : Nat)
    (hnd : (allIds st).Nodup) (hrun : processEvents msgs st = .ok st')
    (ch ch' : Channel) (hch : channelOf st i = some ch) (hch' : channelOf st' i = some ch') :
    ∃ extra, ch'.queue = ch.queue ++ extra ∧
      List.Sublist (okPayloads extra) (msgs.map toUpdateOneof) :=
  processEvents_channelOf msgs st st' hnd hrun i ch ch' hch hch'

/-- Claim C4: an event for which the filter evaluator returns the empty
filter-name set for a subscriber produces no message to that subscriber, no
`try_send` on its channel, no eviction of it, and no gauge change on its
account: the subscriber stays registered with its exact channel, its id is in
none of the attempt or eviction lists, and no teardown task for it appears. -/
theorem empty_filter_no_effects (st : LoopState) (m : Message) (c : ClientConnection)
    (hmem : c ∈ st.clients) (hnd : (allIds st).Nodup)
    (htot : ∀ d ∈ st.clients, (d.filter.get_filters m).isSome)
    (hempty : c.filter.get_filters m = some []) :
    ∃ st' r, scanClients m st.clients = .ok r ∧ dispatchEvent m st = .ok st' ∧
      c.id ∉ r.attempts ∧ c.id ∉ r.ids_full ∧ c.id ∉ r.ids_closed ∧
      st'.clients.find? (fun d => d.id == c.id) = some c ∧
      ∃ more, st'.spawned = st.spawned ++ more ∧ ∀ t ∈ more, t.id ≠ c.id := by
  obtain ⟨hnd1, _, _⟩ := List.nodup_append.mp hnd
  have hstep : clientStep m c = some (c, .skipped) := clientStep_of_empty hempty
  have hscan := scan_total m st.clients htot
  refine ⟨_, _, hscan, dispatchEvent_eq m st _ hscan, ?_, ?_, ?_, ?_, ?_⟩
  · show c.id ∉ st.clients.filterMap (attemptSel m)
    exact not_mem_filterMap_sel attemptSel (attemptSel_shape m) hnd1 hmem
      (attemptSel_eq_none_of_skipped hstep)
  · show c.id ∉ st.clients.filterMap (fullSel m)
    exact not_mem_filterMap_sel fullSel (fullSel_shape m) hnd1 hmem
      (fullSel_eq_none_of_out hstep (fun hx => ClientOutcome.noConfusion hx))
  · show c.id ∉ st.clients.filterMap (closedSel m)
    exact not_mem_filterMap_sel closedSel (closedSel_shape m) hnd1 hmem
      (closedSel_eq_none_of_out hstep (fun hx => ClientOutcome.noConfusion hx))
  · show (processClosedIds (st.clients.filterMap (closedSel m))
        (processFullIds (st.clients.filterMap (fullSel m))
          (st.clients.map (stepClient m)) st.spawned).1 st.connections_total).1.find?
        (fun d => d.id == c.id) = some c
    have hnf : c.id ∉ st.clients.filterMap (fullSel m) :=
      not_mem_filterMap_sel fullSel (fullSel_shape m) hnd1 hmem
        (fullSel_eq_none_of_out hstep (fun hx => ClientOutcome.noConfusion hx))
    have hnc : c.id ∉ st.clients.filterMap (closedSel m) :=
      not_mem_filterMap_sel closedSel (closedSel_shape m) hnd1 hmem
        (closedSel_eq_none_of_out hstep (fun hx => ClientOutcome.noConfusion hx))
    rw [pc_find?_ne _ _ _ hnc, pf_find?_ne _ _ _ hnf, find?_map_step,
      find?_of_mem_nodup hnd1 hmem]
    show some (stepClient m c) = some c
    rw [stepClient_eq_of_step hstep]
  · obtain ⟨rem1, _, hsp1, hid1⟩ := pf_spawned_shape (st.clients.filterMap (fullSel m))
      (st.clients.map (stepClient m)) st.spawned
    refine ⟨rem1.map (fun d => { id := d.id, channel := d.channel }), hsp1, ?_⟩
    intro t ht hteq
    obtain ⟨d, hd, rfl⟩ := List.mem_map.mp ht
    have hdF : d.id ∈ st.clients.filterMap (fullSel m) := hid1 d hd
    have hnf : c.id ∉ st.clients.filterMap (fullSel m) :=
      not_mem_filterMap_sel fullSel (fullSel_shape m) hnd1 hmem
        (fullSel_eq_none_of_out hstep (fun hx => ClientOutcome.noConfusion hx))
    have hdc : d.id = c.id := hteq
    exact hnf (hdc ▸ hdF)

theorem closedSel_inv {m : Message} {d : ClientConnection} {x : Nat}
    (h : closedSel m d = some x) :
    x = d.id ∧ ∃ d1, clientStep m d = some (d1, .closed) := by
  unfold closedSel at h
  cases hs : clientStep m d with
  | none =>
    rw [hs] at h
    exact Option.noConfusion h
  | some p =>
    obtain ⟨d1, out⟩ := p
    rw [hs] at h
    cases out with
    | closed => exact ⟨(Option.some.inj h).symm, d1, rfl⟩
    | skipped => exact Option.noConfusion h
    | sent => exact Option.noConfusion h
    | full => exact Option.noConfusion h

/-- Shared core for the lagged-eviction claims: when a subscriber's filter
matches but its channel is full (open, at capacity), the scan completes, the
subscriber is no longer found in the registry that results from the pass, and
exactly one teardown task carrying its id and its untouched channel has been
appended to the spawned list. -/
theorem full_eviction_core (st : LoopState) (m : Message) (c : ClientConnection)
    (fs : List String)
    (hmem : c ∈ st.clients) (hnd : (allIds st).Nodup)
    (htot : ∀ d ∈ st.clients, (d.filter.get_filters m).isSome)
    (hfs : c.filter.get_filters m = some fs) (hne : fs.isEmpty = false)
    (hcl : c.channel.closed = false) (hcap : c.channel.capacity ≤ c.channel.queue.length) :
    scanClients m st.clients = .ok
      { clients := st.clients.map (stepClient m),
        ids_full := st.clients.filterMap (fullSel m),
        ids_closed := st.clients.filterMap (closedSel m),
        attempts := st.clients.filterMap (attemptSel m) } ∧
    (processClosedIds (st.clients.filterMap (closedSel m))
        (processFullIds (st.clients.filterMap (fullSel m))
          (st.clients.map (stepClient m)) st.spawned).1 st.connections_total).1.find?
      (fun d => d.id == c.id) = none ∧
    ∃ more, (processFullIds (st.clients.filterMap (fullSel m))
        (st.clients.map (stepClient m)) st.spawned).2 = st.spawned ++ more ∧
      more.filter (fun t => t.id == c.id) = [{ id := c.id, channel := c.channel }] := by
  obtain ⟨hnd1, _, _⟩ := List.nodup_append.mp hnd
  have hstep : clientStep m c = some (c, .full) := clientStep_of_full hfs hne hcl hcap
  have hscan := scan_total m st.clients htot
  have hmemF : c.id ∈ st.clients.filterMap (fullSel m) :=
    List.mem_filterMap.mpr ⟨c, hmem, fullSel_eq_some_of_out hstep⟩
  have hnc : c.id ∉ st.clients.filterMap (closedSel m) :=
    not_mem_filterMap_sel closedSel (closedSel_shape m) hnd1 hmem
      (closedSel_eq_none_of_out hstep (fun hx => ClientOutcome.noConfusion hx))
  have hndL : (idsOf (st.clients.map (stepClient m))).Nodup := by
    rw [idsOf_map_step]
    exact hnd1
  have hFnd : (st.clients.filterMap (fullSel m)).Nodup :=
    hnd1.sublist (filterMap_sublist_map _ _ (fullSel_shape m) st.clients)
  have hfind : (st.clients.map (stepClient m)).find? (fun d => d.id == c.id) = some c := by
    rw [find?_map_step, find?_of_mem_nodup hnd1 hmem]
    show some (stepClient m c) = some c
    rw [stepClient_eq_of_step hstep]
  refine ⟨hscan, ?_, ?_⟩
  · rw [pc_find?_ne _ _ _ hnc]
    exact pf_find?_mem_none _ _ _ hndL hmemF
  · exact pf_task_filter _ _ _ c hndL hFnd hmemF hfind

/-- Claim C1: for every event whose dispatch finds a subscriber's delivery
channel full, that subscriber is removed from the coordinator's registry
within the same dispatch pass (it is no longer found in the registry once the
pass completes, hence before the next event is dispatched), and the
connection-count gauge decreases by exactly one for that eviction: exactly
one teardown task for its id is issued, and running a teardown task
decrements the gauge by exactly one. -/
theorem eviction_on_full (st : LoopState) (m : Message) (c : ClientConnection)
    (fs : List String)
    (hmem : c ∈ st.clients) (hnd : (allIds st).Nodup)
    (htot : ∀ d ∈ st.clients, (d.filter.get_filters m).isSome)
    (hfs : c.filter.get_filters m = some fs) (hne : fs.isEmpty = false)
    (hcl : c.channel.closed = false) (hcap : c.channel.capacity ≤ c.channel.queue.length) :
    ∃ st', dispatchEvent m st = .ok st' ∧
      st'.clients.find? (fun d => d.id == c.id) = none ∧
      ∃ more, st'.spawned = st.spawned ++ more ∧
        more.filter (fun t => t.id == c.id) = [{ id := c.id, channel := c.channel }] ∧
        ∀ g : Int, (runSpawnedTask g { id := c.id, channel := c.channel }).1 = g - 1 := by
  obtain ⟨hscan, hfnone, more, hsp, hfil⟩ :=
    full_eviction_core st m c fs hmem hnd htot hfs hne hcl hcap
  exact ⟨_, dispatchEvent_eq m st _ hscan, hfnone, more, hsp, hfil, fun g => rfl⟩

/-- Claim C9: for a full-channel (lagged) eviction the gauge decrement and the
terminal lagged-error push run on a separately spawned task: at the end of
the pass the gauge reflects only the closed-channel evictions (one synchronous
decrement per recorded closed id), the lagged subscriber's work sits in a
pending task, executing a pending task is what performs the decrement and the
lagged push, and pending tasks survive later dispatch passes untouched (so
they may run after subsequent events have been dispatched). -/
theorem lagged_eviction_deferred (st : LoopState) (m : Message) (c : ClientConnection)
    (fs : List String)
    (hmem : c ∈ st.clients) (hnd : (allIds st).Nodup)
    (htot : ∀ d ∈ st.clients, (d.filter.get_filters m).isSome)
    (hfs : c.filter.get_filters m = some fs) (hne : fs.isEmpty = false)
    (hcl : c.channel.closed = false) (hcap : c.channel.capacity ≤ c.channel.queue.length) :
    ∃ st' r, scanClients m st.clients = .ok r ∧ dispatchEvent m st = .ok st' ∧
      st'.connections_total = st.connections_total - r.ids_closed.length ∧
      (∃ more, st'.spawned = st.spawned ++ more ∧
        more.filter (fun t => t.id == c.id) = [{ id := c.id, channel := c.channel }]) ∧
      (∀ (g : Int) (t : SpawnedEviction), runSpawnedTask g t =
        (g - 1, { id := t.id, channel := t.channel.sendBlocking laggedError })) ∧
      ∀ m2 st2, dispatchEvent m2 st' = .ok st2 → ∃ more2, st2.spawned = st'.spawned ++ more2 := by
  obtain ⟨hnd1, _, _⟩ := List.nodup_append.mp hnd
  obtain ⟨hscan, _, more, hsp, hfil⟩ :=
    full_eviction_core st m c fs hmem hnd htot hfs hne hcl hcap
  have hndL : (idsOf (st.clients.map (stepClient m))).Nodup := by
    rw [idsOf_map_step]
    exact hnd1
  have hndA : (idsOf (processFullIds (st.clients.filterMap (fullSel m))
      (st.clients.map (stepClient m)) st.spawned).1).Nodup :=
    hndL.sublist ((pf_clients_sublist _ _ _).map _)
  have hCnd : (st.clients.filterMap (closedSel m)).Nodup :=
    hnd1.sublist (filterMap_sublist_map _ _ (closedSel_shape m) st.clients)
  have hpres : ∀ j ∈ st.clients.filterMap (closedSel m),
      ((processFullIds (st.clients.filterMap (fullSel m))
        (st.clients.map (stepClient m)) st.spawned).1.find? (fun d => d.id == j)).isSome := by
    intro j hj
    obtain ⟨d, hd, hdeq⟩ := List.mem_filterMap.mp hj
    obtain ⟨hjd, d1, hdstep⟩ := closedSel_inv hdeq
    have hnfd : d.id ∉ st.clients.filterMap (fullSel m) :=
      not_mem_filterMap_sel fullSel (fullSel_shape m) hnd1 hd
        (fullSel_eq_none_of_out hdstep (fun hx => ClientOutcome.noConfusion hx))
    rw [hjd, pf_find?_ne _ _ _ hnfd, find?_map_step, find?_of_mem_nodup hnd1 hd]
    rfl
  have hgauge := pc_gauge (st.clients.filterMap (closedSel m))
    (processFullIds (st.clients.filterMap (fullSel m))
      (st.clients.map (stepClient m)) st.spawned).1 st.connections_total hndA hCnd hpres
  refine ⟨_, _, hscan, dispatchEvent_eq m st _ hscan, hgauge, ⟨more, hsp, hfil⟩,
    fun g t => rfl, fun m2 st2 h2 => dispatch_spawned_mono h2⟩

/-- Claim C10: for a subscriber evicted because its channel was full, the
event whose send found the channel full is never delivered to it: the
teardown task carries the channel exactly as it stood before the pass (the
message handed back by the failed `try_send` is dropped), and running the
task makes the stream end with the previously queued messages followed by the
terminal lagged error. -/
theorem lagged_event_not_delivered (st : LoopState) (m : Message) (c : ClientConnection)
    (fs : List String)
    (hmem : c ∈ st.clients) (hnd : (allIds st).Nodup)
    (htot : ∀ d ∈ st.clients, (d.filter.get_filters m).isSome)
    (hfs : c.filter.get_filters m = some fs) (hne : fs.isEmpty = false)
    (hcl : c.channel.closed = false) (hcap : c.channel.capacity ≤ c.channel.queue.length) :
    ∃ st' more, dispatchEvent m st = .ok st' ∧ st'.spawned = st.spawned ++ more ∧
      more.filter (fun t => t.id == c.id) = [{ id := c.id, channel := c.channel }] ∧
      ∀ g : Int, ((runSpawnedTask g { id := c.id, channel := c.channel }).2).channel.queue =
        c.channel.queue ++ [laggedError] := by
  obtain ⟨hscan, _, more, hsp, hfil⟩ :=
    full_eviction_core st m c fs hmem hnd htot hfs hne hcl hcap
  refine ⟨_, more, dispatchEvent_eq m st _ hscan, hsp, hfil, ?_⟩
  intro g
  show (c.channel.sendBlocking laggedError).queue = _
  unfold Channel.sendBlocking
  rw [hcl]
  rfl

theorem stepClient_queue_bound (m : Message) (c : ClientConnection) :
    (stepClient m c).channel.queue.length ≤ max c.channel.queue.length c.channel.capacity := by
  cases hs : clientStep m c with
  | none =>
    unfold stepClient
    rw [hs]
    exact le_max_left _ _
  | some p =>
    obtain ⟨c1, out⟩ := p
    rw [stepClient_eq_of_step hs]
    cases out with
    | sent =>
      obtain ⟨fs, _, _, _, hq, hlt⟩ := clientStep_sent hs
      rw [hq, List.length_append]
      exact le_trans (Nat.succ_le_of_lt hlt) (le_max_right _ _)
    | skipped =>
      rw [clientStep_skipped hs]
      exact le_max_left _ _
    | full =>
      rw [clientStep_full hs]
      exact le_max_left _ _
    | closed =>
      rw [clientStep_closed hs]
      exact le_max_left _ _

/-- Replacing one subscriber's channel (e.g. saturating it) does not change
which selector entries the other subscribers contribute. -/
theorem sel_filter_eq (m : Message) (sel : Message → ClientConnection → Option Nat)
    (hshape : ∀ d, sel m d = none ∨ sel m d = some d.id)
    (pre post : List ClientConnection) (c c' : ClientConnection)
    (hid : c'.id = c.id) :
    ((pre ++ c :: post).filterMap (sel m)).filter (fun j => j != c.id) =
      ((pre ++ c' :: post).filterMap (sel m)).filter (fun j => j != c.id) := by
  rw [List.filterMap_append, List.filterMap_append, List.filter_append, List.filter_append]
  congr 1
  rcases hshape c with h1 | h1 <;> rcases hshape c' with h2 | h2
  · rw [List.filterMap_cons_none h1, List.filterMap_cons_none h2]
  · rw [List.filterMap_cons_none h1, List.filterMap_cons_some h2,
      List.filter_cons_of_neg (by simp [hid])]
  · rw [List.filterMap_cons_some h1, List.filterMap_cons_none h2,
      List.filter_cons_of_neg (by simp)]
  · rw [List.filterMap_cons_some h1, List.filterMap_cons_some h2,
      List.filter_cons_of_neg (by simp), List.filter_cons_of_neg (by simp [hid])]

/-- Claim C7: a subscriber with a saturated delivery channel adds only
constant non-blocking work and never delays any other subscriber.
Rendering: (a) the per-subscriber scan outcome is a function of that
subscriber and the event alone — replacing one subscriber's channel by an
arbitrary (e.g. saturated) one leaves every other subscriber's scanned state
and eviction/attempt records identical; (b) every dispatch send is a
non-blocking attempt: no channel ever grows beyond `max` of its prior length
and its capacity during a pass; (c) the only blocking send — the terminal
lagged error of `runSpawnedTask` — happens outside the dispatch loop: a pass
only appends new teardown tasks and never executes pending ones. -/
theorem slow_subscriber_isolation (m : Message) (pre post : List ClientConnection)
    (c : ClientConnection) (ch2 : Channel)
    (htot : ∀ d ∈ pre ++ c :: post, (d.filter.get_filters m).isSome) :
    ∃ r1 r2,
      scanClients m (pre ++ c :: post) = .ok r1 ∧
      scanClients m (pre ++ { c with channel := ch2 } :: post) = .ok r2 ∧
      r1.clients = pre.map (stepClient m) ++ stepClient m c :: post.map (stepClient m) ∧
      r2.clients = pre.map (stepClient m) ++
        stepClient m { c with channel := ch2 } :: post.map (stepClient m) ∧
      r1.ids_full.filter (fun j => j != c.id) = r2.ids_full.filter (fun j => j != c.id) ∧
      r1.ids_closed.filter (fun j => j != c.id) = r2.ids_closed.filter (fun j => j != c.id) ∧
      r1.attempts.filter (fun j => j != c.id) = r2.attempts.filter (fun j => j != c.id) ∧
      (∀ d : ClientConnection,
        (stepClient m d).channel.queue.length ≤ max d.channel.queue.length d.channel.capacity) ∧
      ∀ st st' : LoopState, dispatchEvent m st = .ok st' →
        ∃ new, st'.spawned = st.spawned ++ new := by
  have htot' : ∀ d ∈ pre ++ { c with channel := ch2 } :: post,
      (d.filter.get_filters m).isSome := by
    intro d hd
    rcases List.mem_append.mp hd with h1 | h1
    · exact htot d (List.mem_append.mpr (Or.inl h1))
    · rcases List.mem_cons.mp h1 with rfl | h2
      · show (c.filter.get_filters m).isSome
        exact htot c (List.mem_append.mpr (Or.inr (List.mem_cons_self c post)))
      · exact htot d (List.mem_append.mpr (Or.inr (List.mem_cons_of_mem c h2)))
  refine ⟨_, _, scan_total m _ htot, scan_total m _ htot', ?_, ?_, ?_, ?_, ?_,
    stepClient_queue_bound m, fun st st' h => dispatch_spawned_mono h⟩
  · show (pre ++ c :: post).map (stepClient m) = _
    rw [List.map_append, List.map_cons]
  · show (pre ++ { c with channel := ch2 } :: post).map (stepClient m) = _
    rw [List.map_append, List.map_cons]
  · exact sel_filter_eq m fullSel (fullSel_shape m) pre post c _ rfl
  · exact sel_filter_eq m closedSel (closedSel_shape m) pre post c _ rfl
  · exact sel_filter_eq m attemptSel (attemptSel_shape m) pre post c _ rfl

/-- Claim C8 (amended): a panic-equivalent fault inside filter evaluation for
one subscriber is NOT isolated in this code: the panic unwinds the whole
coordinator task.  Dispatch for the event stops at the faulting subscriber
(only the already-scanned prefix got its sends), the subscribers at and after
the fault are untouched, no eviction bookkeeping runs, and no later event is
ever dispatched to anyone. -/
theorem filter_panic_terminates_pass (m : Message) (more : List Message)
    (g : Int) (sp : List SpawnedEviction)
    (pre post : List ClientConnection) (c : ClientConnection)
    (hpre : ∀ d ∈ pre, (d.filter.get_filters m).isSome)
    (hc : c.filter.get_filters m = none) :
    dispatchEvent m { clients := pre ++ c :: post, connections_total := g, spawned := sp } =
      .panicked { clients := pre.map (stepClient m) ++ c :: post,
                  connections_total := g, spawned := sp } ∧
    processEvents (m :: more)
        { clients := pre ++ c :: post, connections_total := g, spawned := sp } =
      .panicked { clients := pre.map (stepClient m) ++ c :: post,
                  connections_total := g, spawned := sp } := by
  have hscan := scan_panicked_of m c hc pre post hpre
  have hd : dispatchEvent m
      { clients := pre ++ c :: post, connections_total := g, spawned := sp } =
      .panicked { clients := pre.map (stepClient m) ++ c :: post,
                  connections_total := g, spawned := sp } := by
    simp only [dispatchEvent, hscan]
  refine ⟨hd, ?_⟩
  simp only [processEvents, hd]

/-- A compiler that always succeeds, with a filter that matches nothing; used
to drive the identity-allocation analysis. -/
def wCompileOk : SubscribeRequest → Except String Filter :=
  fun _ => .ok { get_filters := fun _ => some [] }

theorem subscribe_counter (compile : SubscribeRequest → Except String Filter)
    (alive : Bool) (cap counter : Nat) (req : SubscribeRequest) :
    (subscribe compile alive cap counter req).allocatedId = counter ∧
    (subscribe compile alive cap counter req).newCounter = (counter + 1) % USIZE := by
  unfold subscribe
  cases compile req with
  | error e => exact ⟨rfl, rfl⟩
  | ok f =>
    by_cases h : alive <;> simp [h]

/-- The ids consumed by `fetch_add` across a run of subscription calls: the
wrapping counter walks `counter, counter+1, ...` modulo `2^64`. -/
theorem runSubscribes_allocIds (compile : SubscribeRequest → Except String Filter)
    (alive : Bool) (cap : Nat) :
    ∀ (reqs : List SubscribeRequest) (counter : Nat), counter < USIZE →
      allocatedIds (runSubscribes compile alive cap counter reqs) =
        (List.range reqs.length).map (fun k => (counter + k) % USIZE)
  | [], _, _ => rfl
  | r :: rest, counter, hlt => by
    have hc1 := (subscribe_counter compile alive cap counter r).1
    have hc2 := (subscribe_counter compile alive cap counter r).2
    have hlt2 : (counter + 1) % USIZE < USIZE := Nat.mod_lt _ (by norm_num [USIZE])
    have ih := runSubscribes_allocIds compile alive cap rest ((counter + 1) % USIZE) hlt2
    have ih' : List.map (fun e => e.allocatedId)
        (runSubscribes compile alive cap ((counter + 1) % USIZE) rest) =
        (List.range rest.length).map (fun k => ((counter + 1) % USIZE + k) % USIZE) := ih
    show allocatedIds (subscribe compile alive cap counter r ::
      runSubscribes compile alive cap (subscribe compile alive cap counter r).newCounter rest) = _
    unfold allocatedIds
    rw [List.map_cons, hc1, hc2, ih', List.length_cons, List.range_succ_eq_map,
      List.map_cons, List.map_map]
    congr 1
    · show counter = (counter + 0) % USIZE
      rw [Nat.add_zero, Nat.mod_eq_of_lt hlt]
    · apply List.map_congr_left
      intro k _
      show ((counter + 1) % USIZE + k) % USIZE = (counter + (k + 1)) % USIZE
      rw [Nat.mod_add_mod]
      congr 1
      omega

/-- Accepted identities are an order-preserving selection of the allocated
ones (a rejected request still consumes an id, accepted ones carry it into
their registration). -/
theorem acceptedIds_sublist (compile : SubscribeRequest → Except String Filter)
    (alive : Bool) (cap : Nat) :
    ∀ (reqs : List SubscribeRequest) (counter : Nat),
      List.Sublist (acceptedIds (runSubscribes compile alive cap counter reqs))
        (allocatedIds (runSubscribes compile alive cap counter reqs))
  | [], _ => List.Sublist.refl _
  | r :: rest, counter => by
    have ih := acceptedIds_sublist compile alive cap rest
      ((subscribe compile alive cap counter r).newCounter)
    show List.Sublist (acceptedIds (subscribe compile alive cap counter r ::
        runSubscribes compile alive cap (subscribe compile alive cap counter r).newCounter rest))
      (allocatedIds (subscribe compile alive cap counter r ::
        runSubscribes compile alive cap (subscribe compile alive cap counter r).newCounter rest))
    have hshape : (subscribe compile alive cap counter r).registration.map (fun c => c.id)
        = none ∨
        (subscribe compile alive cap counter r).registration.map (fun c => c.id)
        = some ((subscribe compile alive cap counter r).allocatedId) := by
      unfold subscribe
      cases compile r with
      | error e => exact Or.inl rfl
      | ok f =>
        by_cases h : alive <;> simp [h]
    unfold acceptedIds allocatedIds
    rw [List.filterMap_cons, List.map_cons]
    rcases hshape with hn | hsome
    · rw [hn]
      exact ih.cons _
    · rw [hsome]
      exact ih.cons₂ _

/-- Claim C5 (amended): as long as the process allocates at most `2^64`
identities — i.e. the 64-bit `fetch_add` counter has not wrapped — the
identities of accepted subscriptions are pairwise distinct and strictly
increasing in acceptance order, and none is ever reused.  (After `2^64`
allocations the counter wraps and ids repeat; see the counterexample.) -/
theorem accepted_ids_strict_mono (compile : SubscribeRequest → Except String Filter)
    (alive : Bool) (cap : Nat) (reqs : List SubscribeRequest)
    (hlen : reqs.length ≤ USIZE) :
    (acceptedIds (runSubscribes compile alive cap 0 reqs)).Pairwise (· < ·) := by
  have halloc := runSubscribes_allocIds compile alive cap reqs 0 (by norm_num [USIZE])
  have hsub := acceptedIds_sublist compile alive cap reqs 0
  rw [halloc] at hsub
  have hmap : (List.range reqs.length).map (fun k => (0 + k) % USIZE) =
      List.range reqs.length := by
    have hpt : ∀ k ∈ List.range reqs.length, (0 + k) % USIZE = k := by
      intro k hk
      have hklt : k < reqs.length := List.mem_range.mp hk
      rw [Nat.zero_add, Nat.mod_eq_of_lt (lt_of_lt_of_le hklt hlen)]
    calc (List.range reqs.length).map (fun k => (0 + k) % USIZE)
        = (List.range reqs.length).map id := List.map_congr_left hpt
      _ = List.range reqs.length := List.map_id _
  rw [hmap] at hsub
  exact (List.pairwise_lt_range reqs.length).sublist hsub

/-- Under the always-accepting compiler every request registers, so the
accepted ids are exactly the wrapped counter walk. -/
theorem acceptedIds_wCompileOk :
    ∀ (reqs : List SubscribeRequest) (counter : Nat), counter < USIZE →
      acceptedIds (runSubscribes wCompileOk true 1 counter reqs) =
        (List.range reqs.length).map (fun k => (counter + k) % USIZE)
  | [], _, _ => rfl
  | r :: rest, counter, hlt => by
    have hlt2 : (counter + 1) % USIZE < USIZE := Nat.mod_lt _ (by norm_num [USIZE])
    have ih := acceptedIds_wCompileOk rest ((counter + 1) % USIZE) hlt2
    have ih' : List.filterMap (fun e => e.registration.map (fun c => c.id))
        (runSubscribes wCompileOk true 1 ((counter + 1) % USIZE) rest) =
        (List.range rest.length).map (fun k => ((counter + 1) % USIZE + k) % USIZE) := ih
    show counter :: List.filterMap (fun e => e.registration.map (fun c => c.id))
        (runSubscribes wCompileOk true 1 ((counter + 1) % USIZE) rest) = _
    rw [ih', List.length_cons, List.range_succ_eq_map, List.map_cons, List.map_map]
    congr 1
    · show counter = (counter + 0) % USIZE
      rw [Nat.add_zero, Nat.mod_eq_of_lt hlt]
    · apply List.map_congr_left
      intro k _
      show ((counter + 1) % USIZE + k) % USIZE = (counter + (k + 1)) % USIZE
      rw [Nat.mod_add_mod]
      congr 1
      omega

/-- Claim C6: a subscription request whose filter fails to compile is
rejected synchronously with an invalid-argument error carrying the failure
detail; no delivery channel is created, no registration message is sent to
the coordinator, and (hence) the coordinator state — including the
connection-count gauge — is unchanged on its account. -/
theorem subscribe_compile_error (compile : SubscribeRequest → Except String Filter)
    (alive : Bool) (cap counter : Nat) (req : SubscribeRequest) (e : String)
    (h : compile req = .error e) :
    (subscribe compile alive cap counter req).result =
      .invalidArgument (("failed to create filter: ") ++ e) ∧
    (subscribe compile alive cap counter req).channelCreated = false ∧
    (subscribe compile alive cap counter req).registration = none ∧
    ∀ st : LoopState, applyRegistration st (subscribe compile alive cap counter req).registration = st := by
  unfold subscribe
  rw [h]
  exact ⟨rfl, rfl, rfl, fun st => rfl⟩

/-- C5 counterexample: the identity counter is a 64-bit wrapping `fetch_add`.
Across `2^64 + 1` accepted subscriptions the allocated identities repeat (the
first and the `2^64`-th accepted identity are both `0`), so they are not
pairwise distinct — refuting the claim for arbitrary `N`. -/
theorem identity_wraparound_cex :
    ¬ (acceptedIds (runSubscribes wCompileOk true 1 0
        (List.replicate (USIZE + 1) { payload := 0 }))).Nodup := by
  intro hnd
  have hacc := acceptedIds_wCompileOk (List.replicate (USIZE + 1) { payload := 0 }) 0
    (by norm_num [USIZE])
  rw [List.length_replicate] at hacc
  rw [hacc] at hnd
  have hlen : ((List.range (USIZE + 1)).map (fun k => (0 + k) % USIZE)).length = USIZE + 1 := by
    rw [List.length_map, List.length_range]
  have h0 : ((List.range (USIZE + 1)).map (fun k => (0 + k) % USIZE)).get
      ⟨0, by rw [hlen]; omega⟩ = 0 := by
    simp only [List.get_eq_getElem, List.getElem_map, List.getElem_range]
    rw [Nat.zero_add, Nat.zero_mod]
  have h1 : ((List.range (USIZE + 1)).map (fun k => (0 + k) % USIZE)).get
      ⟨USIZE, by rw [hlen]; omega⟩ = 0 := by
    simp only [List.get_eq_getElem, List.getElem_map, List.getElem_range]
    rw [Nat.zero_add, Nat.mod_self]
  have heq := (List.Nodup.get_inj_iff hnd).mp (h0.trans h1.symm)
  have hval : (0 : Nat) = USIZE := congrArg Fin.val heq
  have hpos : 0 < USIZE := by norm_num [USIZE]
  omega

/-! Concrete fixtures used by the witnesses and the C8 counterexample. -/

def wMsg : Message := .Slot { slot := 5, parent := none, status := .Processed }

def wMsg2 : Message := .Slot { slot := 6, parent := some 5, status := .Confirmed }

def wFilterAll : Filter := { get_filters := fun _ => some [("all")] }

def wFilterNone : Filter := { get_filters := fun _ => some [] }

def wUpdate1 : SubscribeUpdate := { filters := [("all")], update_oneof := some (toUpdateOneof wMsg) }

def wUpdate2 : SubscribeUpdate := { filters := [("all")], update_oneof := some (toUpdateOneof wMsg2) }

def wClientFull : ClientConnection :=
  { id := 0, filter := wFilterAll,
    channel := { capacity := 1, queue := [Except.ok wUpdate1], closed := false } }

def wStFull : LoopState := { clients := [wClientFull], connections_total := 1, spawned := [] }

def wClientRoom : ClientConnection :=
  { id := 0, filter := wFilterAll,
    channel := { capacity := 4, queue := [], closed := false } }

def wStRoom : LoopState := { clients := [wClientRoom], connections_total := 1, spawned := [] }

def wStRoomAfter : LoopState :=
  { clients := [{ id := 0, filter := wFilterAll, channel :=
      { capacity := 4, queue := [Except.ok wUpdate1, Except.ok wUpdate2], closed := false } }],
    connections_total := 1, spawned := [] }

def wClientSkip : ClientConnection :=
  { id := 1, filter := wFilterNone,
    channel := { capacity := 4, queue := [], closed := false } }

def wStMixed : LoopState :=
  { clients := [wClientRoom, wClientSkip], connections_total := 2, spawned := [] }

def wR2 : ScanResult :=
  { clients := [{ id := 0, filter := wFilterAll, channel :=
      { capacity := 4, queue := [Except.ok wUpdate1], closed := false } }, wClientSkip],
    ids_full := [], ids_closed := [], attempts := [0] }

def wCh3 : Channel := { capacity := 4, queue := [], closed := false }

def wCh3' : Channel :=
  { capacity := 4, queue := [Except.ok wUpdate1, Except.ok wUpdate2], closed := false }

def wChSat : Channel := { capacity := 1, queue := [Except.ok wUpdate1], closed := false }

def cexClientPanic : ClientConnection :=
  { id := 0, filter := { get_filters := fun _ => none },
    channel := { capacity := 4, queue := [], closed := false } }

def cexClientOk : ClientConnection :=
  { id := 1, filter := wFilterAll,
    channel := { capacity := 4, queue := [], closed := false } }

def cexState : LoopState :=
  { clients := [cexClientPanic, cexClientOk], connections_total := 2, spawned := [] }

def cexStateOnlyOk : LoopState :=
  { clients := [cexClientOk], connections_total := 1, spawned := [] }

def wCompileErr : SubscribeRequest → Except String Filter := fun _ => .error ("bad")

/-- C8 counterexample: subscriber 0's filter evaluation faults on the event
while subscriber 1's filter matches it.  The dispatch pass panics, subscriber
1 receives nothing (its queue stays empty) although without subscriber 0
present the same pass delivers to it, and the coordinator loop is dead: the
next event is not dispatched either.  This refutes the claim that dispatch to
the remaining subscribers still occurs. -/
theorem filter_panic_not_isolated_cex :
    (dispatchEvent wMsg cexState).isPanicked = true ∧
    cexClientOk.filter.get_filters wMsg = some [("all")] ∧
    (channelOf ((dispatchEvent wMsg cexState).state) 1).map Channel.queue = some [] ∧
    (processEvents [wMsg, wMsg2] cexState).isPanicked = true ∧
    (channelOf ((dispatchEvent wMsg cexStateOnlyOk).state) 1).map Channel.queue =
      some [Except.ok wUpdate1] :=
  ⟨rfl, rfl, rfl, rfl, rfl⟩

/-! Witnesses: each claim theorem applied at a concrete input. -/

theorem eviction_on_full_witness :
    ∃ st', dispatchEvent wMsg wStFull = .ok st' ∧
      st'.clients.find? (fun d => d.id == wClientFull.id) = none ∧
      ∃ more, st'.spawned = wStFull.spawned ++ more ∧
        more.filter (fun t => t.id == wClientFull.id) =
          [{ id := wClientFull.id, channel := wClientFull.channel }] ∧
        ∀ g : Int, (runSpawnedTask g
          { id := wClientFull.id, channel := wClientFull.channel }).1 = g - 1 :=
  eviction_on_full wStFull wMsg wClientFull [("all")] (List.mem_singleton.mpr rfl)
    (by decide) (by decide) rfl rfl rfl (by decide)

theorem at_most_once_dispatch_witness :
    wR2.attempts.Nodup ∧ List.Sublist wR2.attempts (idsOf wStMixed.clients) :=
  ⟨(at_most_once_dispatch wMsg wStMixed wR2 (by decide) rfl).1,
   (at_most_once_dispatch wMsg wStMixed wR2 (by decide) rfl).2.1⟩

theorem ordering_preserved_witness :
    ∃ extra, wCh3'.queue = wCh3.queue ++ extra ∧
      List.Sublist (okPayloads extra) ([wMsg, wMsg2].map toUpdateOneof) :=
  ordering_preserved [wMsg, wMsg2] wStRoom wStRoomAfter 0 (by decide) rfl wCh3 wCh3' rfl rfl

theorem empty_filter_no_effects_witness :
    ∃ st' r, scanClients wMsg wStMixed.clients = .ok r ∧
      dispatchEvent wMsg wStMixed = .ok st' ∧
      wClientSkip.id ∉ r.attempts ∧ wClientSkip.id ∉ r.ids_full ∧
      wClientSkip.id ∉ r.ids_closed ∧
      st'.clients.find? (fun d => d.id == wClientSkip.id) = some wClientSkip ∧
      ∃ more, st'.spawned = wStMixed.spawned ++ more ∧ ∀ t ∈ more, t.id ≠ wClientSkip.id :=
  empty_filter_no_effects wStMixed wMsg wClientSkip
    (List.mem_cons_of_mem _ (List.mem_singleton.mpr rfl)) (by decide) (by decide) rfl

theorem accepted_ids_strict_mono_witness :
    (acceptedIds (runSubscribes wCompileOk true 1 0
      [{ payload := 0 }, { payload := 1 }])).Pairwise (· < ·) :=
  accepted_ids_strict_mono wCompileOk true 1 [{ payload := 0 }, { payload := 1 }] (by decide)

theorem subscribe_compile_error_witness :
    (subscribe wCompileErr true 4 0 { payload := 0 }).result =
      .invalidArgument (("failed to create filter: ") ++ ("bad")) ∧
    (subscribe wCompileErr true 4 0 { payload := 0 }).channelCreated = false ∧
    (subscribe wCompileErr true 4 0 { payload := 0 }).registration = none ∧
    ∀ st : LoopState,
      applyRegistration st (subscribe wCompileErr true 4 0 { payload := 0 }).registration = st :=
  subscribe_compile_error wCompileErr true 4 0 { payload := 0 } ("bad") rfl

theorem slow_subscriber_isolation_witness :
    ∃ r1 r2,
      scanClients wMsg ([] ++ wClientRoom :: [wClientSkip]) = .ok r1 ∧
      scanClients wMsg ([] ++ { wClientRoom with channel := wChSat } :: [wClientSkip]) = .ok r2 ∧
      r1.clients = [].map (stepClient wMsg) ++
        stepClient wMsg wClientRoom :: [wClientSkip].map (stepClient wMsg) ∧
      r2.clients = [].map (stepClient wMsg) ++
        stepClient wMsg { wClientRoom with channel := wChSat } ::
          [wClientSkip].map (stepClient wMsg) ∧
      r1.ids_full.filter (fun j => j != wClientRoom.id) =
        r2.ids_full.filter (fun j => j != wClientRoom.id) ∧
      r1.ids_closed.filter (fun j => j != wClientRoom.id) =
        r2.ids_closed.filter (fun j => j != wClientRoom.id) ∧
      r1.attempts.filter (fun j => j != wClientRoom.id) =
        r2.attempts.filter (fun j => j != wClientRoom.id) ∧
      (∀ d : ClientConnection,
        (stepClient wMsg d).channel.queue.length ≤ max d.channel.queue.length d.channel.capacity) ∧
      ∀ st st' : LoopState, dispatchEvent wMsg st = .ok st' →
        ∃ new, st'.spawned = st.spawned ++ new :=
  slow_subscriber_isolation wMsg [] [wClientSkip] wClientRoom wChSat (by decide)

theorem filter_panic_terminates_pass_witness :
    dispatchEvent wMsg cexState = .panicked
      { clients := [cexClientPanic, cexClientOk], connections_total := 2, spawned := [] } ∧
    processEvents [wMsg, wMsg2] cexState = .panicked
      { clients := [cexClientPanic, cexClientOk], connections_total := 2, spawned := [] } :=
  filter_panic_terminates_pass wMsg [wMsg2] 2 [] [] [cexClientOk] cexClientPanic
    (by simp) rfl

theorem lagged_eviction_deferred_witness :
    ∃ st' r, scanClients wMsg wStFull.clients = .ok r ∧
      dispatchEvent wMsg wStFull = .ok st' ∧
      st'.connections_total = wStFull.connections_total - r.ids_closed.length ∧
      (∃ more, st'.spawned = wStFull.spawned ++ more ∧
        more.filter (fun t => t.id == wClientFull.id) =
          [{ id := wClientFull.id, channel := wClientFull.channel }]) ∧
      (∀ (g : Int) (t : SpawnedEviction), runSpawnedTask g t =
        (g - 1, { id := t.id, channel := t.channel.sendBlocking laggedError })) ∧
      ∀ m2 st2, dispatchEvent m2 st' = .ok st2 → ∃ more2, st2.spawned = st'.spawned ++ more2 :=
  lagged_eviction_deferred wStFull wMsg wClientFull [("all")] (List.mem_singleton.mpr rfl)
    (by decide) (by decide) rfl rfl rfl (by decide)

theorem lagged_event_not_delivered_witness :
    ∃ st' more, dispatchEvent wMsg wStFull = .ok st' ∧
      st'.spawned = wStFull.spawned ++ more ∧
      more.filter (fun t => t.id == wClientFull.id) =
        [{ id := wClientFull.id, channel := wClientFull.channel }] ∧
      ∀ g : Int, ((runSpawnedTask g
          { id := wClientFull.id, channel := wClientFull.channel }).2).channel.queue =
        wClientFull.channel.queue ++ [laggedError] :=
  lagged_event_not_delivered wStFull wMsg wClientFull [("all")] (List.mem_singleton.mpr rfl)
    (by decide) (by decide) rfl rfl rfl (by decide)

end Redstone
